import Mathlib

/-!
Shallow embedding of the planning-poker room mutation engine from
src/netlify/functions/api/index.ts.  Each HTTP handler is modelled as a pure
function from the loaded room document (an `Option Room`, `none` meaning the
key is absent in the store) to either a typed error response or the new room
document.  Randomness (`Math.random`) and clock reads (`Date.now()`) are
passed in as explicit parameters.
-/

/-- Players as stored in the room document (interface Player). `vote : string | null`
is modelled as `Option String`; `lastSeen` timestamps are `Nat`. -/
structure Player where
  id : String
  name : String
  vote : Option String
  isObserver : Bool
  lastSeen : Nat
deriving Repr, DecidableEq

/-- Breakout rooms as stored inside a room document (interface BreakoutRoom). -/
structure BreakoutRoom where
  id : String
  name : String
  code : String
  players : List Player
  revealed : Bool
  createdAt : Nat
deriving Repr, DecidableEq

/-- Room documents (interface Room).  `creatorId?` and `breakoutRooms?` are
optional fields in the source, hence `Option` here. -/
structure Room where
  code : String
  players : List Player
  revealed : Bool
  createdAt : Nat
  creatorId : Option String
  breakoutRooms : Option (List BreakoutRoom)
deriving Repr, DecidableEq

/-- An error reply as produced by `errorResponse(message, statusCode)`. -/
structure ErrResp where
  message : String
  statusCode : Nat
deriving Repr, DecidableEq

/-- Models the `errorResponse` helper of the source. -/
def errorResponse (message : String) (statusCode : Nat) : ErrResp :=
  { message := message, statusCode := statusCode }

/-- JavaScript `s.trim()`: strip leading and trailing whitespace, modelled
executably over the character list (the kernel cannot evaluate the built-in
`String.trim`). -/
def strTrim (s : String) : String :=
  String.mk (((s.toList.dropWhile Char.isWhitespace).reverse.dropWhile
    Char.isWhitespace).reverse)

/-- JavaScript `s.toUpperCase()` on the ASCII range, modelled executably over
the character list (the kernel cannot evaluate the built-in `String.toUpper`);
room codes are validated against `[A-Z0-9]` anyway. -/
def strUpper (s : String) : String :=
  String.mk (s.toList.map Char.toUpper)

/-- `validatePlayerName`: nonempty and at most 50 characters after trimming. -/
def validatePlayerName (name : String) : Bool :=
  0 < (strTrim name).length && (strTrim name).length ≤ 50

/-- `validatePlayerId`: nonempty and at most 100 characters. -/
def validatePlayerId (id : String) : Bool :=
  0 < id.length && id.length ≤ 100

/-- `validateRoomCode`: matches the regex of the source, six characters drawn
from ASCII uppercase letters and digits (`Char.isUpper` and `Char.isDigit`
test exactly the ASCII ranges). -/
def validateRoomCode (code : String) : Bool :=
  code.length == 6 && code.toList.all (fun c => c.isUpper || c.isDigit)

/-- The alphabet used by `generateRoomCode`. -/
def roomCodeChars : String := "ABCDEFGHIJKLMNOPQRSTUVWXYZ0123456789"

/-- JavaScript `s.charAt(i)`: the one-character string at index `i`, or the
empty string when the index is out of range. -/
def charAtStr (s : String) (i : Nat) : String :=
  match s.toList.get? i with
  | some c => String.singleton c
  | none => ""

/-- `generateRoomCode`: six successive `code += chars.charAt(Math.floor(Math.random()*36))`
steps; the six random draws are supplied as `rand`. -/
def generateRoomCode (rand : Fin 6 → Nat) : String :=
  charAtStr roomCodeChars (rand 0) ++ charAtStr roomCodeChars (rand 1) ++
  charAtStr roomCodeChars (rand 2) ++ charAtStr roomCodeChars (rand 3) ++
  charAtStr roomCodeChars (rand 4) ++ charAtStr roomCodeChars (rand 5)

/-- The closed card set of the `/vote` handlers, `null` included
(`validVotes` in the source). -/
def validVotes : List (Option String) :=
  [some "0", some "1", some "2", some "3", some "5", some "8",
   some "13", some "21", some "?", some "☕", none]

/-- The rejection test `vote !== null && !validVotes.includes(vote)`. -/
def voteInvalid (vote : Option String) : Bool :=
  vote != none && !(validVotes.contains vote)

/-- JavaScript truthiness test for an optional string field: `undefined` and
the empty string are falsy. -/
def strFalsy : Option String → Bool
  | none => true
  | some s => s.isEmpty

/-- Backfill step `if (!room.creatorId && room.players.length > 0)
room.creatorId = room.players[0].id`. -/
def backfillCreator (room : Room) : Room :=
  match room.players, strFalsy room.creatorId with
  | p :: _, true => { room with creatorId := some p.id }
  | _, _ => room

/-- Backfill step `if (!room.breakoutRooms) room.breakoutRooms = []`. -/
def backfillBreakouts (room : Room) : Room :=
  match room.breakoutRooms with
  | none => { room with breakoutRooms := some [] }
  | some _ => room

/-- The breakout-room collection of a room, empty when the field is absent. -/
def brs (r : Room) : List BreakoutRoom := r.breakoutRooms.getD []

/-- `isRoomCreator` applied to an already-loaded room document: if `creatorId`
is truthy compare it with the caller, otherwise fall back to the first player. -/
def isRoomCreatorRoom (room : Room) (playerId : String) : Bool :=
  if !(strFalsy room.creatorId) then
    room.creatorId == some playerId
  else
    match room.players with
    | [] => false
    | p :: _ => p.id == playerId

/-- The player object built by `/create-room` and both `/join-room` branches. -/
def newPlayer (playerName playerId : String) (now : Nat) : Player :=
  { id := strTrim playerId, name := strTrim playerName, vote := none,
    isObserver := false, lastSeen := now }

/-- Models `arr.findIndex(pred)` followed by `arr[i] = f(arr[i])`: the first
element satisfying `pred` is replaced by its image under `f`; when no element
matches the list is returned unchanged. -/
def updateFirstWhere {α : Type} (pred : α → Bool) (f : α → α) : List α → List α
  | [] => []
  | a :: t => if pred a then f a :: t else a :: updateFirstWhere pred f t

/-- Models `assignments[i].push(p)`: append `p` to the list stored at index
`i`, leaving everything else unchanged (no-op when `i` is out of range, which
never happens at the call site). -/
def pushAt : List (List Player) → Nat → Player → List (List Player)
  | [], _, _ => []
  | a :: rest, 0, p => (a ++ [p]) :: rest
  | a :: rest, Nat.succ i, p => a :: pushAt rest i p

/-- The `votingPlayers.forEach((player, index) => assignments[index % numBreakouts].push(player))`
loop of `assignPlayersToBreakoutRooms`, with the running index made explicit. -/
def assignLoop (k : Nat) : List Player → Nat → List (List Player) → List (List Player)
  | [], _, ass => ass
  | p :: ps, i, ass => assignLoop k ps (i + 1) (pushAt ass (i % k) p)

/-- `assignPlayersToBreakoutRooms`: filter out observers, then round-robin the
remaining players over `numBreakouts` initially-empty buckets. -/
def assignPlayersToBreakoutRooms (players : List Player) (numBreakouts : Nat) :
    List (List Player) :=
  let votingPlayers := players.filter (fun p => !p.isObserver)
  assignLoop numBreakouts votingPlayers 0 (List.replicate numBreakouts [])

/-- Specification-side description of one round-robin bucket: the players of
`l` whose running index `n, n+1, …` is congruent to `b` modulo `k`. -/
def bucketFrom (k b : Nat) : Nat → List Player → List Player
  | _, [] => []
  | n, p :: ps =>
    if n % k == b then p :: bucketFrom k b (n + 1) ps else bucketFrom k b (n + 1) ps

/-- The non-observer players of a room, in room order. -/
def votingPlayers (room : Room) : List Player :=
  room.players.filter (fun p => !p.isObserver)

/-- The `while (existingRoom && attempts < 10)` retry loop of `/create-room`:
`fuel` is the number of retries still allowed, `idx` numbers the random draws,
and the pair carries the current candidate code and the store lookup result. -/
def codeLoop (gen : Nat → String) (store : String → Option Room) :
    Nat → Nat → String → Option Room → String × Option Room
  | 0, _, rc, ex => (rc, ex)
  | Nat.succ fuel, idx, rc, ex =>
    if ex.isSome then
      codeLoop gen store fuel (idx + 1) (gen idx) (store ("room:" ++ gen idx))
    else (rc, ex)

/-- The `/create-room` handler.  `rands` supplies the six random draws of every
code-generation attempt; `store` is consulted for code collisions. -/
def createRoom (playerName playerId : String) (rands : Nat → Fin 6 → Nat)
    (store : String → Option Room) (now : Nat) : Except ErrResp Room :=
  if !(validatePlayerName playerName && validatePlayerId playerId) then
    .error (errorResponse "Player name and ID required" 400)
  else
    let gen : Nat → String := fun k => generateRoomCode (rands k)
    let first := gen 0
    let res := codeLoop gen store 10 1 first (store ("room:" ++ first))
    if res.2.isSome then
      .error (errorResponse "Failed to generate unique room code" 500)
    else
      .ok { code := res.1, players := [newPlayer playerName playerId now],
            revealed := false, createdAt := now, creatorId := some (strTrim playerId),
            breakoutRooms := some [] }

/-- The `/join-room` handler applied to the loaded document for the requested
code (`none` = room absent, in which case join silently creates). -/
def handleJoinRoom (roomCode playerName playerId : String) (now : Nat)
    (cur : Option Room) : Except ErrResp Room :=
  if !(validateRoomCode roomCode && validatePlayerName playerName &&
       validatePlayerId playerId) then
    .error (errorResponse "Room code, player name, and ID required" 400)
  else
    match cur with
    | none =>
        .ok { code := strUpper roomCode, players := [newPlayer playerName playerId now],
              revealed := false, createdAt := now, creatorId := some (strTrim playerId),
              breakoutRooms := some [] }
    | some found =>
        let room := backfillBreakouts (backfillCreator found)
        if room.players.any (fun p => p.id == playerId) then
          let upd := updateFirstWhere (fun p => p.id == playerId)
            (fun p => { p with lastSeen := now, name := strTrim playerName }) room.players
          .ok { room with players := upd }
        else if 50 ≤ room.players.length then
          .error (errorResponse "Room is full" 400)
        else
          .ok { room with players := room.players ++ [newPlayer playerName playerId now] }

/-- The `/vote` handler. -/
def handleVote (roomCode playerId : String) (vote : Option String) (now : Nat)
    (cur : Option Room) : Except ErrResp Room :=
  if !(validateRoomCode roomCode && validatePlayerId playerId) then
    .error (errorResponse "Room code and player ID required" 400)
  else if voteInvalid vote then
    .error (errorResponse "Invalid vote value" 400)
  else
    match cur with
    | none => .error (errorResponse "Room not found" 404)
    | some room =>
        if room.players.any (fun p => p.id == playerId) then
          let upd := updateFirstWhere (fun p => p.id == playerId)
            (fun p => { p with vote := vote, lastSeen := now }) room.players
          .ok { room with players := upd }
        else
          .error (errorResponse "Player not found in room" 404)

/-- The `/reveal` handler. -/
def handleReveal (roomCode : String) (cur : Option Room) : Except ErrResp Room :=
  if !(validateRoomCode roomCode) then
    .error (errorResponse "Room code required" 400)
  else
    match cur with
    | none => .error (errorResponse "Room not found" 404)
    | some room => .ok { room with revealed := true }

/-- The `/reset` handler. -/
def handleReset (roomCode : String) (cur : Option Room) : Except ErrResp Room :=
  if !(validateRoomCode roomCode) then
    .error (errorResponse "Room code required" 400)
  else
    match cur with
    | none => .error (errorResponse "Room not found" 404)
    | some room =>
        let cleared := room.players.map (fun p => { p with vote := none })
        .ok { room with players := cleared, revealed := false }

/-- The `/leave` handler; `.ok none` models `db.del` (room deleted). -/
def handleLeave (roomCode playerId : String) (cur : Option Room) :
    Except ErrResp (Option Room) :=
  if !(validateRoomCode roomCode && validatePlayerId playerId) then
    .error (errorResponse "Room code and player ID required" 400)
  else
    match cur with
    | none => .error (errorResponse "Room not found" 404)
    | some room =>
        let remaining := room.players.filter (fun p => p.id != playerId)
        let room1 := { room with players := remaining }
        let room2 :=
          match room1.breakoutRooms with
          | none => room1
          | some brList =>
              let filtered := brList.map (fun br =>
                { br with players := br.players.filter (fun p => p.id != playerId) })
              let pruned := filtered.filter (fun br => 0 < br.players.length)
              { room1 with breakoutRooms := some pruned }
        if room2.players.length == 0 then .ok none else .ok (some room2)

/-- The `/create-breakout-rooms` handler.  `genId` supplies the random
breakout-room ids; `stored` is the loaded document.  Note that the creator
check of the source re-reads the store, which still holds the pre-backfill
document, hence `isRoomCreatorRoom stored`. -/
def handleCreateBreakoutRooms (roomCode playerId : String) (numBreakouts : Int)
    (genId : Nat → String) (now : Nat) (cur : Option Room) : Except ErrResp Room :=
  if !(validateRoomCode roomCode && validatePlayerId playerId) then
    .error (errorResponse "Room code and player ID required" 400)
  else if numBreakouts < 2 || 10 < numBreakouts then
    .error (errorResponse "Number of breakout rooms must be between 2 and 10" 400)
  else
    match cur with
    | none => .error (errorResponse "Room not found" 404)
    | some stored =>
        let room := backfillBreakouts (backfillCreator stored)
        if !(isRoomCreatorRoom stored playerId) then
          .error (errorResponse "Only room creator can create breakout rooms" 403)
        else
          let voting := room.players.filter (fun p => !p.isObserver)
          if voting.length < 2 then
            .error (errorResponse "At least 2 voting players required to create breakout rooms" 400)
          else if room.revealed || voting.any (fun p => p.vote != none) then
            .error (errorResponse "Cannot create breakout rooms during an active voting round" 400)
          else
            let maxBreakouts : Nat := voting.length / 2
            let actualNumBreakouts : Int := min numBreakouts (maxBreakouts : Int)
            if actualNumBreakouts < 2 then
              .error (errorResponse "Not enough players to create breakout rooms (need at least 4 players)" 400)
            else
              let k := actualNumBreakouts.toNat
              let assignments := assignPlayersToBreakoutRooms room.players k
              let newBreakoutRooms : List BreakoutRoom := (List.range k).map (fun i =>
                { id := genId i, name := "Breakout Room " ++ toString (i + 1),
                  code := roomCode ++ "-BR" ++ toString (i + 1),
                  players := assignments.getD i [], revealed := false,
                  createdAt := now })
              .ok { room with breakoutRooms := some newBreakoutRooms }

/-- The `/join-breakout-room` handler.  The target breakout room is looked up
before the player is filtered out of every breakout room; the (possibly
extended) original target object is then written back over the first entry
with the requested id, exactly as in the source. -/
def handleJoinBreakout (roomCode playerId breakoutRoomId : String)
    (cur : Option Room) : Except ErrResp Room :=
  if !(validateRoomCode roomCode && validatePlayerId playerId) then
    .error (errorResponse "Room code, player ID, and breakout room ID required" 400)
  else
    match cur with
    | none => .error (errorResponse "Room not found" 404)
    | some found =>
        let room := backfillBreakouts found
        match room.players.find? (fun p => p.id == playerId) with
        | none => .error (errorResponse "Player not found in room" 404)
        | some player =>
            match (brs room).find? (fun br => br.id == breakoutRoomId) with
            | none => .error (errorResponse "Breakout room not found" 404)
            | some breakoutRoom =>
                let cleared := (brs room).map (fun br =>
                  { br with players := br.players.filter (fun p => p.id != playerId) })
                let target :=
                  if !(breakoutRoom.players.any (fun p => p.id == playerId)) then
                    { breakoutRoom with players := breakoutRoom.players ++ [player] }
                  else breakoutRoom
                let updated := updateFirstWhere (fun br => br.id == breakoutRoomId)
                  (fun _ => target) cleared
                .ok { room with breakoutRooms := some updated }

/-- The `/leave-breakout-room` handler: remove the player from every breakout
room; empty breakout rooms are NOT pruned here. -/
def handleLeaveBreakout (roomCode playerId : String) (cur : Option Room) :
    Except ErrResp Room :=
  if !(validateRoomCode roomCode && validatePlayerId playerId) then
    .error (errorResponse "Room code and player ID required" 400)
  else
    match cur with
    | none => .error (errorResponse "Room not found" 404)
    | some found =>
        let room := backfillBreakouts found
        let cleared := (brs room).map (fun br =>
          { br with players := br.players.filter (fun p => p.id != playerId) })
        .ok { room with breakoutRooms := some cleared }

/-- The `/breakout-room/vote` handler. -/
def handleBreakoutVote (roomCode breakoutRoomId playerId : String)
    (vote : Option String) (now : Nat) (cur : Option Room) : Except ErrResp Room :=
  if !(validateRoomCode roomCode && validatePlayerId playerId) then
    .error (errorResponse "Room code, breakout room ID, and player ID required" 400)
  else if voteInvalid vote then
    .error (errorResponse "Invalid vote value" 400)
  else
    match cur with
    | none => .error (errorResponse "Room not found" 404)
    | some found =>
        let room := backfillBreakouts found
        match (brs room).find? (fun br => br.id == breakoutRoomId) with
        | none => .error (errorResponse "Breakout room not found" 404)
        | some breakoutRoom =>
            if breakoutRoom.players.any (fun p => p.id == playerId) then
              let updBr : BreakoutRoom → BreakoutRoom := fun br =>
                let updPlayers := updateFirstWhere (fun p => p.id == playerId)
                  (fun p => { p with vote := vote, lastSeen := now }) br.players
                { br with players := updPlayers }
              let updated := updateFirstWhere (fun br => br.id == breakoutRoomId)
                updBr (brs room)
              .ok { room with breakoutRooms := some updated }
            else
              .error (errorResponse "Player not found in breakout room" 404)

/-- The `/breakout-room/reveal` handler. -/
def handleBreakoutReveal (roomCode breakoutRoomId : String) (cur : Option Room) :
    Except ErrResp Room :=
  if !(validateRoomCode roomCode) then
    .error (errorResponse "Room code and breakout room ID required" 400)
  else
    match cur with
    | none => .error (errorResponse "Room not found" 404)
    | some found =>
        let room := backfillBreakouts found
        match (brs room).find? (fun br => br.id == breakoutRoomId) with
        | none => .error (errorResponse "Breakout room not found" 404)
        | some _ =>
            let updated := updateFirstWhere (fun br => br.id == breakoutRoomId)
              (fun br => { br with revealed := true }) (brs room)
            .ok { room with breakoutRooms := some updated }

/-- The `/breakout-room/reset` handler. -/
def handleBreakoutReset (roomCode breakoutRoomId : String) (cur : Option Room) :
    Except ErrResp Room :=
  if !(validateRoomCode roomCode) then
    .error (errorResponse "Room code and breakout room ID required" 400)
  else
    match cur with
    | none => .error (errorResponse "Room not found" 404)
    | some found =>
        let room := backfillBreakouts found
        match (brs room).find? (fun br => br.id == breakoutRoomId) with
        | none => .error (errorResponse "Breakout room not found" 404)
        | some _ =>
            let resetBr : BreakoutRoom → BreakoutRoom := fun br =>
              let cleared := br.players.map (fun p => { p with vote := none })
              { br with players := cleared, revealed := false }
            let updated := updateFirstWhere (fun br => br.id == breakoutRoomId)
              resetBr (brs room)
            .ok { room with breakoutRooms := some updated }

/-- The `/delete-breakout-rooms` handler. -/
def handleDeleteBreakoutRooms (roomCode playerId : String) (cur : Option Room) :
    Except ErrResp Room :=
  if !(validateRoomCode roomCode && validatePlayerId playerId) then
    .error (errorResponse "Room code and player ID required" 400)
  else
    match cur with
    | none => .error (errorResponse "Room not found" 404)
    | some room =>
        if !(isRoomCreatorRoom room playerId) then
          .error (errorResponse "Only room creator can delete breakout rooms" 403)
        else
          .ok { room with breakoutRooms := some [] }

/-- Run a handler against a store: on success the result is saved under `key`
(`db.set`), on an error response the handler returned before any `db.set`, so
the store is untouched. -/
def runEndpoint (key : String) (f : Option Room → Except ErrResp Room)
    (store : String → Option Room) : String → Option Room :=
  match f (store key) with
  | .ok r => fun k => if k = key then some r else store k
  | .error _ => store

/-- Same as `runEndpoint` for `/leave`, whose success result may be a deletion. -/
def runLeaveEndpoint (key : String) (f : Option Room → Except ErrResp (Option Room))
    (store : String → Option Room) : String → Option Room :=
  match f (store key) with
  | .ok o => fun k => if k = key then o else store k
  | .error _ => store

/-- One engine command addressed at a fixed room key, with all external inputs
(raw request fields, clock, randomness, collision store for create) embedded. -/
inductive Cmd where
  | create (playerName playerId : String) (rands : Nat → Fin 6 → Nat)
      (collisions : String → Option Room) (now : Nat)
  | join (roomCode playerName playerId : String) (now : Nat)
  | vote (roomCode playerId : String) (v : Option String) (now : Nat)
  | reveal (roomCode : String)
  | reset (roomCode : String)
  | leave (roomCode playerId : String)
  | createBreakouts (roomCode playerId : String) (numBreakouts : Int)
      (genId : Nat → String) (now : Nat)
  | joinBreakout (roomCode playerId breakoutRoomId : String)
  | leaveBreakout (roomCode playerId : String)
  | breakoutVote (roomCode breakoutRoomId playerId : String) (v : Option String) (now : Nat)
  | breakoutReveal (roomCode breakoutRoomId : String)
  | breakoutReset (roomCode breakoutRoomId : String)
  | deleteBreakouts (roomCode playerId : String)

/-- Lift an `Except`-returning handler to a total step on the document state:
an error response leaves the stored document unchanged (the source returns
before `db.set`). -/
def applyOk (res : Except ErrResp Room) (cur : Option Room) : Option Room :=
  match res with
  | .ok r => some r
  | .error _ => cur

/-- The transition taken by one command on the document stored at this room's
key.  `create` only ever writes to a key the collision check found absent, so
on an occupied key it leaves the document alone. -/
def stepCmd (cmd : Cmd) (cur : Option Room) : Option Room :=
  match cmd with
  | .create pn pid rands collisions now =>
      match cur with
      | some r => some r
      | none => applyOk (createRoom pn pid rands collisions now) none
  | .join c pn pid now => applyOk (handleJoinRoom c pn pid now cur) cur
  | .vote c pid v now => applyOk (handleVote c pid v now cur) cur
  | .reveal c => applyOk (handleReveal c cur) cur
  | .reset c => applyOk (handleReset c cur) cur
  | .leave c pid =>
      match handleLeave c pid cur with
      | .ok o => o
      | .error _ => cur
  | .createBreakouts c pid n genId now =>
      applyOk (handleCreateBreakoutRooms c pid n genId now cur) cur
  | .joinBreakout c pid brId => applyOk (handleJoinBreakout c pid brId cur) cur
  | .leaveBreakout c pid => applyOk (handleLeaveBreakout c pid cur) cur
  | .breakoutVote c brId pid v now => applyOk (handleBreakoutVote c brId pid v now cur) cur
  | .breakoutReveal c brId => applyOk (handleBreakoutReveal c brId cur) cur
  | .breakoutReset c brId => applyOk (handleBreakoutReset c brId cur) cur
  | .deleteBreakouts c pid => applyOk (handleDeleteBreakoutRooms c pid cur) cur

/-- Apply a command sequence to an initially absent room. -/
def applyCmds (cmds : List Cmd) : Option Room :=
  cmds.foldl (fun st c => stepCmd c st) none

/-- Room states reachable through engine commands alone, starting from an
absent room. -/
def Reachable (s : Option Room) : Prop :=
  ∃ cmds : List Cmd, applyCmds cmds = s

/-- The inductive invariant carried through `stepCmd`:
the room respects the 50-player cap, every player (main and breakout) is a
non-observer, every breakout member's id occurs among the main players' ids,
and a given id is contained in no more breakout rooms than it has entries in
the main player list. -/
structure RoomInv (r : Room) : Prop where
  capLe : r.players.length ≤ 50
  obsMain : ∀ p ∈ r.players, p.isObserver = false
  obsBr : ∀ br ∈ brs r, ∀ p ∈ br.players, p.isObserver = false
  idSubset : ∀ br ∈ brs r, ∀ p ∈ br.players, ∃ q ∈ r.players, q.id = p.id
  brCount : ∀ s : String,
    (brs r).countP (fun br => br.players.any (fun p => p.id == s)) ≤
      r.players.countP (fun p => p.id == s)

/-- The invariant lifted to the optional document state. -/
def RoomInvO : Option Room → Prop
  | none => True
  | some r => RoomInv r

/-- A fresh player with the given id, used to build concrete test rooms. -/
def mkP (i : String) : Player :=
  { id := i, name := i, vote := none, isObserver := false, lastSeen := 0 }

/-- A deterministic stand-in for `generateBreakoutRoomId` producing distinct
ids "b", "bb", "bbb", …. -/
def bbGenId : Nat → String := fun i => String.mk (List.replicate (i + 1) 'b')

/-- The concrete room of the specification scenario: code ABC123, players
P1 (creator), P2, P3, P4, none observers, no votes, not revealed. -/
def scenRoom : Room :=
  { code := "ABC123", players := [mkP "P1", mkP "P2", mkP "P3", mkP "P4"],
    revealed := false, createdAt := 0, creatorId := some "P1",
    breakoutRooms := some [] }

/-- Command trace witnessing that an emptied breakout room survives: four
players join, the creator makes two breakout rooms, and the two members of
the first breakout room each leave it (without leaving the room). -/
def cexCmds : List Cmd :=
  [ Cmd.join "ABC123" "Alice" "P1" 1, Cmd.join "ABC123" "Bob" "P2" 2,
    Cmd.join "ABC123" "Carol" "P3" 3, Cmd.join "ABC123" "Dave" "P4" 4,
    Cmd.createBreakouts "ABC123" "P1" 2 bbGenId 5,
    Cmd.leaveBreakout "ABC123" "P1", Cmd.leaveBreakout "ABC123" "P3" ]

/-- The reachable state produced by `cexCmds`. -/
def cexState : Option Room := applyCmds cexCmds

/-- A room at the 50-player cap, with distinct player ids p0 … p49. -/
def capRoom : Room :=
  { code := "ABC123", players := (List.range 50).map (fun i => mkP ("p" ++ toString i)),
    revealed := false, createdAt := 0, creatorId := some "p0",
    breakoutRooms := some [] }

/-- Deterministic random draws for `createRoom` witnesses: attempt `k` draws
the indices 0,1,2,3,4,5, producing the code "ABCDEF". -/
def seqRands : Nat → Fin 6 → Nat := fun _ i => i.val

/-- An empty store (no room stored under any key). -/
def emptyStore : String → Option Room := fun _ => none

/-- The room produced by a single join command on an absent code. -/
def joinedRoom : Room :=
  { code := "ABC123", players := [newPlayer "Alice" "P1" 1], revealed := false,
    createdAt := 1, creatorId := some "P1", breakoutRooms := some [] }

/-- `scenRoom` after P2 left. -/
def leaveRoomEx : Room :=
  { code := "ABC123", players := [mkP "P1", mkP "P3", mkP "P4"], revealed := false,
    createdAt := 0, creatorId := some "P1", breakoutRooms := some [] }

/-- The room created by `createRoom` with the draws of `seqRands` on an empty
store. -/
def createdRoomEx : Room :=
  { code := "ABCDEF", players := [newPlayer "Alice" "P1" 0], revealed := false,
    createdAt := 0, creatorId := some "P1", breakoutRooms := some [] }

/-- `scenRoom` after P2 voted "8" at time 9. -/
def scenR1 : Room :=
  { code := "ABC123",
    players := [mkP "P1", { mkP "P2" with vote := some "8", lastSeen := 9 }, mkP "P3", mkP "P4"],
    revealed := false, createdAt := 0, creatorId := some "P1", breakoutRooms := some [] }

/-- `scenR1` after a round reset. -/
def scenR2 : Room :=
  { code := "ABC123",
    players := [mkP "P1", { mkP "P2" with lastSeen := 9 }, mkP "P3", mkP "P4"],
    revealed := false, createdAt := 0, creatorId := some "P1", breakoutRooms := some [] }

/-- The effective breakout count `min(numBreakouts, floor(nonObserverCount/2))`
as a natural number. -/
def effectiveBreakouts (room : Room) (n : Int) : Nat :=
  (min n (((votingPlayers room).length / 2 : Nat) : Int)).toNat

/-- The breakout-room list built by the creation loop of
`/create-breakout-rooms` for a given player list and effective count. -/
def newBreakoutList (c : String) (genId : Nat → String) (now : Nat)
    (players : List Player) (k : Nat) : List BreakoutRoom :=
  (List.range k).map (fun i =>
    { id := genId i, name := "Breakout Room " ++ toString (i + 1),
      code := c ++ "-BR" ++ toString (i + 1),
      players := (assignPlayersToBreakoutRooms players k).getD i [],
      revealed := false, createdAt := now })

/-- Replace the breakout collection of a room wholesale. -/
def setBreakoutRooms (r : Room) (brsNew : List BreakoutRoom) : Room :=
  { r with breakoutRooms := some brsNew }

/-- A store holding exactly `scenRoom` under its key. -/
def scenStore : String → Option Room :=
  fun k => if k = "room:" ++ "ABC123" then some scenRoom else none

/-! ### Generic list lemmas about the combinators of the embedding -/

/-- `updateFirstWhere` preserves the length of the list. -/
theorem updateFirstWhere_length {α : Type} (pred : α → Bool) (f : α → α) (l : List α) :
    (updateFirstWhere pred f l).length = l.length := by
  induction l with
  | nil => rfl
  | cons a t ih =>
    by_cases h : pred a = true <;> simp [updateFirstWhere, h, ih]

/-- Decomposition of a findIndex-then-assign update: either no element
matches and the list is unchanged, or the list splits around the first match,
which is the element `find?` returns and the only element replaced. -/
theorem updateFirstWhere_spec {α : Type} (pred : α → Bool) (f : α → α) (l : List α) :
    (l.find? pred = none ∧ updateFirstWhere pred f l = l) ∨
    ∃ l₁ m l₂, l = l₁ ++ m :: l₂ ∧ pred m = true ∧ l.find? pred = some m ∧
      (∀ x ∈ l₁, pred x = false) ∧ updateFirstWhere pred f l = l₁ ++ f m :: l₂ := by
  induction l with
  | nil => left; exact ⟨rfl, rfl⟩
  | cons a t ih =>
    by_cases h : pred a = true
    · right
      refine ⟨[], a, t, rfl, h, ?_, ?_, ?_⟩
      · exact List.find?_cons_of_pos t h
      · intro x hx; cases hx
      · simp [updateFirstWhere, h]
    · have hfind := List.find?_cons_of_neg t h
      rcases ih with ⟨h1, h2⟩ | ⟨l₁, m, l₂, he, hm, hf, hl₁, hu⟩
      · left
        refine ⟨?_, ?_⟩
        · rw [hfind, h1]
        · simp [updateFirstWhere, h, h2]
      · right
        refine ⟨a :: l₁, m, l₂, by rw [he]; rfl, hm, ?_, ?_, ?_⟩
        · rw [hfind, hf]
        · intro x hx
          rcases List.mem_cons.mp hx with rfl | hx2
          · simpa using h
          · exact hl₁ x hx2
        · simp [updateFirstWhere, h, hu]

/-- Every element of the updated list is an old element or the image of an
old element. -/
theorem mem_updateFirstWhere {α : Type} {pred : α → Bool} {f : α → α} {l : List α} {x : α}
    (hx : x ∈ updateFirstWhere pred f l) : x ∈ l ∨ ∃ y ∈ l, x = f y := by
  induction l with
  | nil => cases hx
  | cons a t ih =>
    by_cases h : pred a = true
    · simp only [updateFirstWhere, if_pos h, List.mem_cons] at hx
      rcases hx with rfl | hx2
      · exact Or.inr ⟨a, List.mem_cons_self a t, rfl⟩
      · exact Or.inl (List.mem_cons_of_mem _ hx2)
    · simp only [updateFirstWhere, if_neg h, List.mem_cons] at hx
      rcases hx with rfl | hx2
      · exact Or.inl (List.mem_cons_self _ _)
      · rcases ih hx2 with hx3 | ⟨y, hy, hxy⟩
        · exact Or.inl (List.mem_cons_of_mem _ hx3)
        · exact Or.inr ⟨y, List.mem_cons_of_mem _ hy, hxy⟩

/-- Updating an element with a function that does not change its image under
`g` leaves the `g`-image of the list unchanged. -/
theorem updateFirstWhere_map {α β : Type} (pred : α → Bool) (f : α → α) (g : α → β)
    (hg : ∀ x, g (f x) = g x) (l : List α) :
    (updateFirstWhere pred f l).map g = l.map g := by
  induction l with
  | nil => rfl
  | cons a t ih =>
    by_cases h : pred a = true <;> simp [updateFirstWhere, h, ih, hg]

/-- `countP` is invariant under an update whose function preserves the
counted predicate. -/
theorem countP_updateFirstWhere {α : Type} (pred : α → Bool) (f : α → α) (q : α → Bool)
    (hq : ∀ x, q (f x) = q x) (l : List α) :
    (updateFirstWhere pred f l).countP q = l.countP q := by
  induction l with
  | nil => rfl
  | cons a t ih =>
    by_cases h : pred a = true <;>
      simp [updateFirstWhere, h, List.countP_cons, ih, hq]

/-- `any` is invariant under an update whose function preserves the tested
predicate. -/
theorem any_updateFirstWhere {α : Type} (pred : α → Bool) (f : α → α) (q : α → Bool)
    (hq : ∀ x, q (f x) = q x) (l : List α) :
    (updateFirstWhere pred f l).any q = l.any q := by
  induction l with
  | nil => rfl
  | cons a t ih =>
    by_cases h : pred a = true <;> simp [updateFirstWhere, h, ih, hq]

/-- Pointwise-equal predicates count equal (Boolean-equality form). -/
theorem countP_congr_eq {α : Type} {p q : α → Bool} {l : List α}
    (h : ∀ x ∈ l, p x = q x) : l.countP p = l.countP q :=
  List.countP_congr (fun x hx => by rw [h x hx])

/-- Counting bound: if every `p`-element is a `q`-element or an `r`-element,
the `p`-count is at most the sum of the two other counts. -/
theorem countP_or_le {α : Type} {p q r : α → Bool} {l : List α}
    (h : ∀ x ∈ l, p x = true → q x = true ∨ r x = true) :
    l.countP p ≤ l.countP q + l.countP r := by
  induction l with
  | nil => simp
  | cons a t ih =>
    have iht := ih (fun x hx hpx => h x (List.mem_cons_of_mem _ hx) hpx)
    by_cases hp : p a = true
    · rcases h a (List.mem_cons_self a t) hp with hq | hr
      · simp only [List.countP_cons, hp, hq, if_true]
        omega
      · simp only [List.countP_cons, hp, hr, if_true]
        omega
    · have h1 : List.countP p (a :: t) = List.countP p t := by
        simp [List.countP_cons, hp]
      rw [h1, List.countP_cons, List.countP_cons]
      omega

/-- In a duplicate-free list at most one element is `==`-equal to `a`. -/
theorem countP_beq_le_one {α : Type} [BEq α] [LawfulBEq α] {l : List α}
    (hl : l.Nodup) (a : α) : l.countP (fun x => x == a) ≤ 1 := by
  induction l with
  | nil => simp
  | cons b t ih =>
    rcases List.nodup_cons.mp hl with ⟨hb, ht⟩
    by_cases hba : (b == a) = true
    · have hz : t.countP (fun x => x == a) = 0 := by
        rw [List.countP_eq_zero]
        intro x hx hxa
        exact hb (by rw [eq_of_beq hba, ← eq_of_beq hxa]; exact hx)
      simp [List.countP_cons, hba, hz]
    · have hba2 : (b == a) = false := by simpa using hba
      simpa [List.countP_cons, hba2] using ih ht

/-! ### Round-robin assignment lemmas -/

/-- `pushAt` preserves the number of buckets. -/
theorem pushAt_length (ass : List (List Player)) (i : Nat) (p : Player) :
    (pushAt ass i p).length = ass.length := by
  induction ass generalizing i with
  | nil => rfl
  | cons a rest ih =>
    cases i with
    | zero => rfl
    | succ j => simp [pushAt, ih]

/-- `pushAt` appends to the addressed bucket. -/
theorem pushAt_getD_self (ass : List (List Player)) (i : Nat) (p : Player)
    (h : i < ass.length) : (pushAt ass i p).getD i [] = ass.getD i [] ++ [p] := by
  induction ass generalizing i with
  | nil => exact absurd h (Nat.not_lt_zero i)
  | cons a rest ih =>
    cases i with
    | zero => rfl
    | succ j =>
      simp only [pushAt, List.getD_cons_succ]
      exact ih j (Nat.lt_of_succ_lt_succ h)

/-- `pushAt` leaves the other buckets alone. -/
theorem pushAt_getD_ne (ass : List (List Player)) (i j : Nat) (p : Player)
    (h : j ≠ i) : (pushAt ass i p).getD j [] = ass.getD j [] := by
  induction ass generalizing i j with
  | nil => rfl
  | cons a rest ih =>
    cases i with
    | zero =>
      cases j with
      | zero => exact absurd rfl h
      | succ jj => simp [pushAt, List.getD_cons_succ]
    | succ ii =>
      cases j with
      | zero => simp [pushAt]
      | succ jj =>
        simp only [pushAt, List.getD_cons_succ]
        exact ih ii jj (fun e => h (by rw [e]))

/-- Reading every bucket of a bucket list back in order reproduces the list. -/
theorem getD_range_map (ass : List (List Player)) :
    (List.range ass.length).map (fun b => ass.getD b []) = ass := by
  induction ass with
  | nil => rfl
  | cons a rest ih =>
    have hc : ∀ b ∈ List.range rest.length,
        ((fun b => (a :: rest).getD b []) ∘ Nat.succ) b = (fun b => rest.getD b []) b := by
      intro b _
      simp [List.getD_cons_succ]
    rw [List.length_cons, List.range_succ_eq_map, List.map_cons, List.map_map,
      List.map_congr_left hc, ih]
    rfl

/-- Closed form of the source's round-robin push loop: starting from buckets
`ass`, bucket `b` ends up holding its old contents followed by the players of
`l` whose running index is congruent to `b` modulo `k`. -/
theorem assignLoop_eq (k : Nat) (l : List Player) : ∀ (n : Nat) (ass : List (List Player)),
    ass.length = k →
    assignLoop k l n ass = (List.range k).map (fun b => ass.getD b [] ++ bucketFrom k b n l) := by
  induction l with
  | nil =>
    intro n ass h
    calc assignLoop k [] n ass = ass := rfl
      _ = (List.range ass.length).map (fun b => ass.getD b []) := (getD_range_map ass).symm
      _ = (List.range k).map (fun b => ass.getD b [] ++ bucketFrom k b n []) := by
          rw [h]
          exact List.map_congr_left (fun b _ => by simp [bucketFrom])
  | cons p ps ih =>
    intro n ass h
    have hlen : (pushAt ass (n % k) p).length = k := by rw [pushAt_length, h]
    have hstep : assignLoop k (p :: ps) n ass = assignLoop k ps (n + 1) (pushAt ass (n % k) p) := rfl
    rw [hstep, ih (n + 1) _ hlen]
    apply List.map_congr_left
    intro b hb
    have hbk : b < k := List.mem_range.mp hb
    by_cases hnb : n % k = b
    · have hbeq : (n % k == b) = true := by simp [hnb]
      rw [← hnb, pushAt_getD_self ass (n % k) p (by rw [h]; exact hnb ▸ hbk)]
      simp [bucketFrom, hbeq, hnb, List.append_assoc]
    · have hbeq : (n % k == b) = false := by simp [hnb]
      rw [pushAt_getD_ne ass (n % k) b p (fun e => hnb e.symm)]
      simp [bucketFrom, hbeq]

/-- Bucket members come from the assigned list. -/
theorem bucketFrom_subset {k b : Nat} {p : Player} :
    ∀ {n : Nat} {l : List Player}, p ∈ bucketFrom k b n l → p ∈ l := by
  intro n l
  induction l generalizing n with
  | nil => intro hp; cases hp
  | cons a t ih =>
    intro hp
    by_cases h : (n % k == b) = true
    · simp only [bucketFrom, h, if_true, List.mem_cons] at hp
      rcases hp with rfl | hp2
      · exact List.mem_cons_self _ _
      · exact List.mem_cons_of_mem _ (ih hp2)
    · simp only [bucketFrom, h, if_false] at hp
      exact List.mem_cons_of_mem _ (ih hp)

/-- The element at position `i` lands in the bucket of its index. -/
theorem get_mem_bucketFrom {k b : Nat} :
    ∀ (l : List Player) (n i : Nat) (h : i < l.length), (n + i) % k = b →
      l.get ⟨i, h⟩ ∈ bucketFrom k b n l := by
  intro l
  induction l with
  | nil => intro n i h; exact absurd h (Nat.not_lt_zero i)
  | cons a t ih =>
    intro n i h hmod
    cases i with
    | zero =>
      have hb : (n % k == b) = true := by simpa using hmod
      simp [bucketFrom, hb]
    | succ j =>
      have hj : j < t.length := Nat.lt_of_succ_lt_succ h
      have hmod2 : ((n + 1) + j) % k = b := by
        rw [show (n + 1) + j = n + (j + 1) by omega]
        exact hmod
      have hmem := ih (n + 1) j hj hmod2
      have hget : (a :: t).get ⟨j + 1, h⟩ = t.get ⟨j, hj⟩ := rfl
      rw [hget]
      by_cases hb : (n % k == b) = true
      · simp only [bucketFrom, hb, if_true]
        exact List.mem_cons_of_mem _ hmem
      · simp only [bucketFrom, hb, if_false]
        exact hmem

/-- Every bucket member sits at a position of the list whose index is
congruent to the bucket number. -/
theorem mem_bucketFrom_exists {k b : Nat} {p : Player} :
    ∀ (l : List Player) (n : Nat), p ∈ bucketFrom k b n l →
      ∃ i, ∃ h : i < l.length, l.get ⟨i, h⟩ = p ∧ (n + i) % k = b := by
  intro l
  induction l with
  | nil => intro n hp; cases hp
  | cons a t ih =>
    intro n hp
    by_cases hb : (n % k == b) = true
    · simp only [bucketFrom, hb, if_true, List.mem_cons] at hp
      rcases hp with rfl | hp2
      · exact ⟨0, Nat.succ_pos _, rfl, by simpa using hb⟩
      · rcases ih (n + 1) hp2 with ⟨i, hi, hget, hmod⟩
        refine ⟨i + 1, Nat.succ_lt_succ hi, hget, ?_⟩
        rw [show n + (i + 1) = (n + 1) + i by omega]
        exact hmod
    · simp only [bucketFrom, hb, if_false] at hp
      rcases ih (n + 1) hp with ⟨i, hi, hget, hmod⟩
      refine ⟨i + 1, Nat.succ_lt_succ hi, hget, ?_⟩
      rw [show n + (i + 1) = (n + 1) + i by omega]
      exact hmod

/-- The number of buckets containing a `q`-element is at most the number of
`q`-elements distributed. -/
theorem countP_bucketFrom_le (k : Nat) (q : Player → Bool) :
    ∀ (l : List Player) (n : Nat),
      (List.range k).countP (fun b => (bucketFrom k b n l).any q) ≤ l.countP q := by
  intro l
  induction l with
  | nil =>
    intro n
    have h0 : (List.range k).countP (fun b => (bucketFrom k b n []).any q) = 0 := by
      rw [List.countP_eq_zero]
      intro b _
      simp [bucketFrom]
    simp [h0]
  | cons a t ih =>
    intro n
    by_cases hq : q a = true
    · have h1 : (List.range k).countP (fun b => (bucketFrom k b n (a :: t)).any q) ≤
          (List.range k).countP (fun b => (bucketFrom k b (n + 1) t).any q) +
          (List.range k).countP (fun b => b == n % k) := by
        apply countP_or_le
        intro b hb hpb
        by_cases hnb : (n % k == b) = true
        · exact Or.inr (beq_iff_eq.mpr (eq_of_beq hnb).symm)
        · left
          simpa [bucketFrom, hnb] using hpb
      have h2 : (List.range k).countP (fun b => b == n % k) ≤ 1 :=
        countP_beq_le_one (List.nodup_range k) (n % k)
      have h3 := ih (n + 1)
      simp only [List.countP_cons, hq, if_true]
      omega
    · have h1 : ∀ b ∈ List.range k,
          (bucketFrom k b n (a :: t)).any q = (bucketFrom k b (n + 1) t).any q := by
        intro b _
        by_cases hnb : (n % k == b) = true <;> simp [bucketFrom, hnb, hq]
      rw [countP_congr_eq h1]
      have h3 := ih (n + 1)
      simpa [List.countP_cons, hq] using h3

/-! ### Room-code generation lemmas -/

/-- Indexing inside the bounds of a string yields one of its characters. -/
theorem charAtStr_of_lt (s : String) (i : Nat) (h : i < s.toList.length) :
    ∃ c, c ∈ s.toList ∧ charAtStr s i = String.singleton c := by
  unfold charAtStr
  cases hg : s.toList.get? i with
  | none =>
    rw [List.get?_eq_none] at hg
    omega
  | some c => exact ⟨c, List.get?_mem hg, rfl⟩

/-- Every character of the code alphabet is an ASCII uppercase letter or a
digit. -/
theorem roomCodeChars_ok : ∀ c ∈ roomCodeChars.toList, (c.isUpper || c.isDigit) = true := by
  decide

/-- When every random draw is in range (as `Math.random()` guarantees), the
generated room code matches `^[A-Z0-9]{6}$`. -/
theorem validate_generateRoomCode (rand : Fin 6 → Nat) (h : ∀ i, rand i < 36) :
    validateRoomCode (generateRoomCode rand) = true := by
  have hlen : roomCodeChars.toList.length = 36 := rfl
  have hc : ∀ i : Fin 6, ∃ c, c ∈ roomCodeChars.toList ∧
      charAtStr roomCodeChars (rand i) = String.singleton c := by
    intro i
    exact charAtStr_of_lt roomCodeChars (rand i) (by rw [hlen]; exact h i)
  obtain ⟨c0, hm0, he0⟩ := hc 0
  obtain ⟨c1, hm1, he1⟩ := hc 1
  obtain ⟨c2, hm2, he2⟩ := hc 2
  obtain ⟨c3, hm3, he3⟩ := hc 3
  obtain ⟨c4, hm4, he4⟩ := hc 4
  obtain ⟨c5, hm5, he5⟩ := hc 5
  have hg : (generateRoomCode rand).toList = [c0, c1, c2, c3, c4, c5] := by
    rw [generateRoomCode, he0, he1, he2, he3, he4, he5]
    simp [String.toList, String.data_append, String.singleton]
  have hlist : (generateRoomCode rand).length = 6 := by
    have : (generateRoomCode rand).length = (generateRoomCode rand).toList.length := rfl
    rw [this, hg]
    rfl
  rw [validateRoomCode, hg, hlist]
  simp [roomCodeChars_ok c0 hm0, roomCodeChars_ok c1 hm1, roomCodeChars_ok c2 hm2,
    roomCodeChars_ok c3 hm3, roomCodeChars_ok c4 hm4, roomCodeChars_ok c5 hm5]

/-- The code returned by the retry loop is always one of the generated codes. -/
theorem codeLoop_code_mem (gen : Nat → String) (store : String → Option Room) :
    ∀ (fuel idx : Nat) (rc : String) (ex : Option Room),
      (∃ j, rc = gen j) → ∃ j, (codeLoop gen store fuel idx rc ex).1 = gen j := by
  intro fuel
  induction fuel with
  | zero =>
    intro idx rc ex h
    simpa [codeLoop] using h
  | succ f ih =>
    intro idx rc ex h
    by_cases he : ex.isSome = true
    · simp only [codeLoop, he, if_true]
      exact ih (idx + 1) (gen idx) _ ⟨idx, rfl⟩
    · simp only [codeLoop, he, if_false]
      exact h

/-- If every candidate code examined by the loop is taken in the store, the
loop ends with a collision still in hand. -/
theorem codeLoop_all_collide (gen : Nat → String) (store : String → Option Room) :
    ∀ (fuel idx : Nat) (rc : String) (ex : Option Room),
      ex.isSome = true →
      (∀ j, idx ≤ j → j < idx + fuel → (store ("room:" ++ gen j)).isSome = true) →
      ((codeLoop gen store fuel idx rc ex).2).isSome = true := by
  intro fuel
  induction fuel with
  | zero =>
    intro idx rc ex he _
    simpa [codeLoop] using he
  | succ f ih =>
    intro idx rc ex he hall
    simp only [codeLoop, he, if_true]
    exact ih (idx + 1) (gen idx) (store ("room:" ++ gen idx))
      (hall idx (Nat.le_refl idx) (by omega)) (fun j hj1 hj2 => hall j (by omega) (by omega))

/-! ### Backfill and invariant helper lemmas -/

theorem backfillCreator_players (r : Room) : (backfillCreator r).players = r.players := by
  unfold backfillCreator
  split <;> rfl

theorem backfillCreator_breakoutRooms (r : Room) :
    (backfillCreator r).breakoutRooms = r.breakoutRooms := by
  unfold backfillCreator
  split <;> rfl

theorem backfillCreator_revealed (r : Room) : (backfillCreator r).revealed = r.revealed := by
  unfold backfillCreator
  split <;> rfl

theorem backfillBreakouts_players (r : Room) : (backfillBreakouts r).players = r.players := by
  unfold backfillBreakouts
  split <;> rfl

theorem backfillBreakouts_revealed (r : Room) :
    (backfillBreakouts r).revealed = r.revealed := by
  unfold backfillBreakouts
  split <;> rfl

theorem brs_backfillBreakouts (r : Room) : brs (backfillBreakouts r) = brs r := by
  unfold backfillBreakouts
  cases h : r.breakoutRooms <;> simp [brs, h]

/-- The result of both backfill steps has the same players, reveal flag and
breakout collection as the stored document. -/
theorem normalize_fields (r : Room) :
    (backfillBreakouts (backfillCreator r)).players = r.players ∧
    (backfillBreakouts (backfillCreator r)).revealed = r.revealed ∧
    brs (backfillBreakouts (backfillCreator r)) = brs r := by
  refine ⟨?_, ?_, ?_⟩
  · rw [backfillBreakouts_players, backfillCreator_players]
  · rw [backfillBreakouts_revealed, backfillCreator_revealed]
  · rw [brs_backfillBreakouts]
    unfold brs
    rw [backfillCreator_breakoutRooms]

/-- The invariant only depends on the players and the breakout collection. -/
theorem roomInv_of_eq {r r2 : Room} (hInv : RoomInv r) (hp : r2.players = r.players)
    (hb : brs r2 = brs r) : RoomInv r2 := by
  constructor
  · rw [hp]; exact hInv.capLe
  · rw [hp]; exact hInv.obsMain
  · rw [hb]; exact hInv.obsBr
  · rw [hb, hp]; exact hInv.idSubset
  · intro s; rw [hb, hp]; exact hInv.brCount s

/-- Freshly created rooms (create, or join on an absent code) satisfy the
invariant. -/
theorem roomInv_newRoom (code pn pid : String) (now created : Nat) (cid : Option String) :
    RoomInv { code := code, players := [newPlayer pn pid now], revealed := false,
              createdAt := created, creatorId := cid, breakoutRooms := some [] } := by
  constructor
  · simp
  · intro p hp
    simp only [List.mem_singleton] at hp
    rw [hp]
    rfl
  · intro br hbr
    simp [brs] at hbr
  · intro br hbr
    simp [brs] at hbr
  · intro s
    simp [brs]

/-- Updating players by an id-preserving function keeps an id-existence fact. -/
theorem exists_id_updateFirstWhere {pred : Player → Bool} {f : Player → Player}
    (hf : ∀ x : Player, (f x).id = x.id) {l : List Player} {s : String}
    (h : ∃ q ∈ l, q.id = s) : ∃ q ∈ updateFirstWhere pred f l, q.id = s := by
  rcases h with ⟨q, hq, hqs⟩
  have hm : q.id ∈ (updateFirstWhere pred f l).map (fun p => p.id) := by
    rw [updateFirstWhere_map pred f _ hf]
    exact List.mem_map.mpr ⟨q, hq, rfl⟩
  rcases List.mem_map.mp hm with ⟨q2, hq2, hq2id⟩
  exact ⟨q2, hq2, by rw [hq2id, hqs]⟩

/-- Mapping players by an id-preserving function keeps an id-existence fact. -/
theorem exists_id_map {f : Player → Player} (hf : ∀ x, (f x).id = x.id)
    {l : List Player} {s : String} (h : ∃ q ∈ l, q.id = s) :
    ∃ q ∈ l.map f, q.id = s := by
  rcases h with ⟨q, hq, hqs⟩
  exact ⟨f q, List.mem_map.mpr ⟨q, hq, rfl⟩, by rw [hf q, hqs]⟩

/-- Main-room player updates by an id- and observer-preserving function keep
the invariant. -/
theorem roomInv_update_players {r : Room} (hInv : RoomInv r) (pred : Player → Bool)
    (f : Player → Player) (hid : ∀ x, (f x).id = x.id)
    (hobs : ∀ x, (f x).isObserver = x.isObserver) :
    RoomInv { r with players := updateFirstWhere pred f r.players } := by
  constructor
  · show (updateFirstWhere pred f r.players).length ≤ 50
    rw [updateFirstWhere_length]
    exact hInv.capLe
  · intro p hp
    rcases mem_updateFirstWhere hp with hm | ⟨y, hy, rfl⟩
    · exact hInv.obsMain p hm
    · rw [hobs y]; exact hInv.obsMain y hy
  · intro br hbr
    exact hInv.obsBr br hbr
  · intro br hbr p hp
    exact exists_id_updateFirstWhere hid (hInv.idSubset br hbr p hp)
  · intro s
    show _ ≤ (updateFirstWhere pred f r.players).countP _
    rw [countP_updateFirstWhere pred f _ (fun x => by rw [hid x])]
    exact hInv.brCount s

/-- Mapping the main players by an id- and observer-preserving function keeps
the invariant. -/
theorem roomInv_map_players {r : Room} (hInv : RoomInv r) (f : Player → Player)
    (hid : ∀ x, (f x).id = x.id) (hobs : ∀ x, (f x).isObserver = x.isObserver) :
    RoomInv { r with players := r.players.map f } := by
  constructor
  · show (r.players.map f).length ≤ 50
    rw [List.length_map]
    exact hInv.capLe
  · intro p hp
    rcases List.mem_map.mp hp with ⟨y, hy, rfl⟩
    rw [hobs]
    exact hInv.obsMain y hy
  · intro br hbr
    exact hInv.obsBr br hbr
  · intro br hbr p hp
    exact exists_id_map hid (hInv.idSubset br hbr p hp)
  · intro s
    show _ ≤ (r.players.map f).countP _
    have hq : r.players.countP ((fun p => p.id == s) ∘ f) =
        r.players.countP (fun p => p.id == s) :=
      countP_congr_eq (fun x _ => by simp only [Function.comp_apply, hid x])
    rw [List.countP_map, hq]
    exact hInv.brCount s

/-- Appending a fresh non-observer player below the cap keeps the invariant. -/
theorem roomInv_append_player {r : Room} (hInv : RoomInv r) (p0 : Player)
    (hobs : p0.isObserver = false) (hlen : r.players.length < 50) :
    RoomInv { r with players := r.players ++ [p0] } := by
  constructor
  · show (r.players ++ [p0]).length ≤ 50
    rw [List.length_append]
    simp only [List.length_singleton]
    omega
  · intro p hp
    rcases List.mem_append.mp hp with hm | hm
    · exact hInv.obsMain p hm
    · rw [List.mem_singleton] at hm
      rw [hm]
      exact hobs
  · intro br hbr
    exact hInv.obsBr br hbr
  · intro br hbr p hp
    rcases hInv.idSubset br hbr p hp with ⟨q, hq, hqid⟩
    exact ⟨q, List.mem_append_left _ hq, hqid⟩
  · intro s
    show _ ≤ (r.players ++ [p0]).countP _
    rw [List.countP_append]
    exact (hInv.brCount s).trans (Nat.le_add_right _ _)

/-- `/join-room` preserves the invariant. -/
theorem roomInv_handleJoinRoom {c pn pid : String} {now : Nat} {cur : Option Room}
    {r2 : Room} (hInv : RoomInvO cur) (h : handleJoinRoom c pn pid now cur = .ok r2) :
    RoomInv r2 := by
  rw [handleJoinRoom.eq_def] at h
  by_cases hv : (!(validateRoomCode c && validatePlayerName pn && validatePlayerId pid)) = true
  · rw [if_pos hv] at h
    exact Except.noConfusion h
  · rw [if_neg hv] at h
    cases cur with
    | none =>
      cases h
      exact roomInv_newRoom _ _ _ _ _ _
    | some found =>
      have hInvF : RoomInv found := hInv
      obtain ⟨hp, hrev, hbrs⟩ := normalize_fields found
      have hNorm : RoomInv (backfillBreakouts (backfillCreator found)) :=
        roomInv_of_eq hInvF hp hbrs
      simp only [] at h
      by_cases hany : ((backfillBreakouts (backfillCreator found)).players.any
          (fun p => p.id == pid)) = true
      · rw [if_pos hany] at h
        cases h
        exact roomInv_update_players hNorm _ _ (fun x => rfl) (fun x => rfl)
      · rw [if_neg hany] at h
        by_cases hfull : (50 ≤ (backfillBreakouts (backfillCreator found)).players.length)
        · rw [if_pos hfull] at h
          exact Except.noConfusion h
        · rw [if_neg hfull] at h
          cases h
          exact roomInv_append_player hNorm _ rfl (by omega)

/-- A list from which `pid` was filtered out contains no player with that id. -/
theorem not_contains_of_filtered {players : List Player} {pid : String} :
    ((players.filter (fun p => p.id != pid)).any (fun p => p.id == pid)) = false := by
  rw [List.any_eq_false]
  intro p hp hpe
  exact (bne_iff_ne.mp (List.mem_filter.mp hp).2) (eq_of_beq hpe)

/-- A witness inside a filtered list is a witness inside the original list. -/
theorem any_of_any_filter {α : Type} {l : List α} {w q : α → Bool}
    (h : (l.filter w).any q = true) : l.any q = true := by
  rw [List.any_eq_true] at h ⊢
  rcases h with ⟨x, hx, hq⟩
  exact ⟨x, (List.mem_filter.mp hx).1, hq⟩

/-- Filtering out a different id does not change the count of an id. -/
theorem countP_filter_beq_ne {l : List Player} {s pid : String} (hs : s ≠ pid) :
    (l.filter (fun p => p.id != pid)).countP (fun p => p.id == s) =
      l.countP (fun p => p.id == s) := by
  rw [List.countP_filter]
  apply countP_congr_eq
  intro x _
  by_cases hx : (x.id == s) = true
  · have hne : (x.id != pid) = true := bne_iff_ne.mpr (by rw [eq_of_beq hx]; exact hs)
    rw [hx, hne]
    rfl
  · have hx2 : (x.id == s) = false := by simpa using hx
    rw [hx2]
    rfl

/-- `/create-room` results satisfy the invariant. -/
theorem roomInv_createRoom {pn pid : String} {rands : Nat → Fin 6 → Nat}
    {store : String → Option Room} {now : Nat} {r2 : Room}
    (h : createRoom pn pid rands store now = .ok r2) : RoomInv r2 := by
  rw [createRoom.eq_def] at h
  split at h
  · exact Except.noConfusion h
  · simp only [] at h
    split at h
    · exact Except.noConfusion h
    · cases h
      exact roomInv_newRoom _ _ _ _ _ _

/-- `/vote` preserves the invariant. -/
theorem roomInv_handleVote {c pid : String} {v : Option String} {now : Nat}
    {cur : Option Room} {r2 : Room} (hInv : RoomInvO cur)
    (h : handleVote c pid v now cur = .ok r2) : RoomInv r2 := by
  rw [handleVote.eq_def] at h
  split at h
  · exact Except.noConfusion h
  · split at h
    · exact Except.noConfusion h
    · cases cur with
      | none => exact Except.noConfusion h
      | some room =>
        have hInvR : RoomInv room := hInv
        simp only [] at h
        split at h
        · cases h
          exact roomInv_update_players hInvR _ _ (fun x => rfl) (fun x => rfl)
        · exact Except.noConfusion h

/-- `/reveal` preserves the invariant. -/
theorem roomInv_handleReveal {c : String} {cur : Option Room} {r2 : Room}
    (hInv : RoomInvO cur) (h : handleReveal c cur = .ok r2) : RoomInv r2 := by
  rw [handleReveal.eq_def] at h
  split at h
  · exact Except.noConfusion h
  · cases cur with
    | none => exact Except.noConfusion h
    | some room =>
      have hInvR : RoomInv room := hInv
      cases h
      exact roomInv_of_eq hInvR rfl rfl

/-- `/reset` preserves the invariant. -/
theorem roomInv_handleReset {c : String} {cur : Option Room} {r2 : Room}
    (hInv : RoomInvO cur) (h : handleReset c cur = .ok r2) : RoomInv r2 := by
  rw [handleReset.eq_def] at h
  split at h
  · exact Except.noConfusion h
  · cases cur with
    | none => exact Except.noConfusion h
    | some room =>
      have hInvR : RoomInv room := hInv
      simp only [] at h
      cases h
      exact roomInv_of_eq
        (roomInv_map_players hInvR (fun p => { p with vote := none }) (fun x => rfl) (fun x => rfl))
        rfl rfl

/-- `/leave` preserves the invariant when the room survives. -/
theorem roomInv_handleLeave {c pid : String} {cur : Option Room} {r2 : Room}
    (hInv : RoomInvO cur) (h : handleLeave c pid cur = .ok (some r2)) : RoomInv r2 := by
  rw [handleLeave.eq_def] at h
  split at h
  · exact Except.noConfusion h
  · cases cur with
    | none => exact Except.noConfusion h
    | some room =>
      have hInvR : RoomInv room := hInv
      simp only [] at h
      cases hbr : room.breakoutRooms with
      | none =>
        rw [hbr] at h
        simp only [] at h
        split at h
        · exact Option.noConfusion (Except.ok.inj h)
        · have hr2 := (Option.some.inj (Except.ok.inj h)).symm
          subst hr2
          constructor
          · exact (List.length_filter_le _ _).trans hInvR.capLe
          · intro p hp
            exact hInvR.obsMain p (List.mem_filter.mp hp).1
          · intro br hbrm
            simp [brs] at hbrm
          · intro br hbrm p hp
            simp [brs] at hbrm
          · intro s
            simp [brs]
      | some brList =>
        rw [hbr] at h
        simp only [] at h
        split at h
        · exact Option.noConfusion (Except.ok.inj h)
        · have hr2 := (Option.some.inj (Except.ok.inj h)).symm
          subst hr2
          have hbrsr : brs room = brList := by simp [brs, hbr]
          constructor
          · exact (List.length_filter_le _ _).trans hInvR.capLe
          · intro p hp
            exact hInvR.obsMain p (List.mem_filter.mp hp).1
          · intro br hbrm p hp
            simp only [brs, Option.getD_some] at hbrm
            rcases List.mem_filter.mp hbrm with ⟨hbrm2, _⟩
            rcases List.mem_map.mp hbrm2 with ⟨br0, hbr0, rfl⟩
            have hp0 := (List.mem_filter.mp hp).1
            exact hInvR.obsBr br0 (by rw [hbrsr]; exact hbr0) p hp0
          · intro br hbrm p hp
            simp only [brs, Option.getD_some] at hbrm
            rcases List.mem_filter.mp hbrm with ⟨hbrm2, _⟩
            rcases List.mem_map.mp hbrm2 with ⟨br0, hbr0, rfl⟩
            rcases List.mem_filter.mp hp with ⟨hp0, hpne⟩
            rcases hInvR.idSubset br0 (by rw [hbrsr]; exact hbr0) p hp0 with ⟨q, hq, hqid⟩
            refine ⟨q, List.mem_filter.mpr ⟨hq, ?_⟩, hqid⟩
            rw [show q.id = p.id from hqid]
            exact hpne
          · intro s
            simp only [brs, Option.getD_some]
            by_cases hs : s = pid
            · subst hs
              have h0 : ((brList.map (fun br =>
                  { br with players := br.players.filter (fun p => p.id != s) })).filter
                    (fun br => 0 < br.players.length)).countP
                      (fun br => br.players.any (fun p => p.id == s)) = 0 := by
                rw [List.countP_eq_zero]
                intro br hbrm hany
                rcases List.mem_filter.mp hbrm with ⟨hbrm2, _⟩
                rcases List.mem_map.mp hbrm2 with ⟨br0, _, rfl⟩
                rw [not_contains_of_filtered] at hany
                exact Bool.noConfusion hany
              rw [h0]
              exact Nat.zero_le _
            · have step1 : ((brList.map (fun br =>
                  { br with players := br.players.filter (fun p => p.id != pid) })).filter
                    (fun br => 0 < br.players.length)).countP
                      (fun br => br.players.any (fun p => p.id == s)) ≤
                  (brList.map (fun br =>
                    { br with players := br.players.filter (fun p => p.id != pid) })).countP
                      (fun br => br.players.any (fun p => p.id == s)) :=
                List.Sublist.countP_le _ (List.filter_sublist _)
              have step2 : (brList.map (fun br =>
                    { br with players := br.players.filter (fun p => p.id != pid) })).countP
                      (fun br => br.players.any (fun p => p.id == s)) ≤
                  brList.countP (fun br => br.players.any (fun p => p.id == s)) := by
                rw [List.countP_map]
                apply List.countP_mono_left
                intro br _ hany
                exact any_of_any_filter hany
              have step3 : brList.countP (fun br => br.players.any (fun p => p.id == s)) ≤
                  room.players.countP (fun p => p.id == s) := by
                rw [← hbrsr]
                exact hInvR.brCount s
              have step4 : room.players.countP (fun p => p.id == s) =
                  (room.players.filter (fun p => p.id != pid)).countP
                    (fun p => p.id == s) := (countP_filter_beq_ne hs).symm
              omega

/-- The bucket list produced by `assignPlayersToBreakoutRooms` is the
round-robin bucket family over the non-observer players. -/
theorem assignments_getD (players : List Player) (k i : Nat) (hik : i < k) :
    (assignPlayersToBreakoutRooms players k).getD i [] =
      bucketFrom k i 0 (players.filter (fun p => !p.isObserver)) := by
  unfold assignPlayersToBreakoutRooms
  rw [assignLoop_eq k _ 0 _ (List.length_replicate k [])]
  have hlen : ((List.range k).map (fun b =>
      (List.replicate k ([] : List Player)).getD b [] ++
        bucketFrom k b 0 (players.filter (fun p => !p.isObserver)))).length = k := by
    rw [List.length_map, List.length_range]
  rw [List.getD_eq_getElem _ _ (by rw [hlen]; exact hik)]
  have hrep : (List.replicate k ([] : List Player)).getD i [] = [] := by
    rw [List.getD_eq_getElem _ _ (by rw [List.length_replicate]; exact hik)]
    exact List.getElem_replicate _ _
  simp only [List.getElem_map, List.getElem_range, hrep, List.nil_append]

/-- Per-id bound for the freshly created breakout-room list. -/
theorem countP_newBrs_le (players : List Player) (k : Nat) (genId : Nat → String)
    (c : String) (now : Nat) (s : String) :
    ((List.range k).map (fun i =>
      ({ id := genId i, name := "Breakout Room " ++ toString (i + 1),
         code := c ++ "-BR" ++ toString (i + 1),
         players := (assignPlayersToBreakoutRooms players k).getD i [],
         revealed := false, createdAt := now } : BreakoutRoom))).countP
        (fun br => br.players.any (fun p => p.id == s)) ≤
      players.countP (fun p => p.id == s) := by
  rw [List.countP_map]
  have hcg : ∀ b ∈ List.range k,
      ((fun br => br.players.any (fun p => p.id == s)) ∘ (fun i =>
        ({ id := genId i, name := "Breakout Room " ++ toString (i + 1),
           code := c ++ "-BR" ++ toString (i + 1),
           players := (assignPlayersToBreakoutRooms players k).getD i [],
           revealed := false, createdAt := now } : BreakoutRoom))) b =
      (fun b => (bucketFrom k b 0 (players.filter (fun p => !p.isObserver))).any
        (fun p => p.id == s)) b := by
    intro b hb
    simp only [Function.comp_apply]
    rw [assignments_getD _ _ b (List.mem_range.mp hb)]
  rw [countP_congr_eq hcg]
  exact (countP_bucketFrom_le k _ _ 0).trans
    (List.Sublist.countP_le _ (List.filter_sublist _))

/-- `/create-breakout-rooms` preserves the invariant. -/
theorem roomInv_handleCreateBreakouts {c pid : String} {n : Int} {genId : Nat → String}
    {now : Nat} {cur : Option Room} {r2 : Room} (hInv : RoomInvO cur)
    (h : handleCreateBreakoutRooms c pid n genId now cur = .ok r2) : RoomInv r2 := by
  rw [handleCreateBreakoutRooms.eq_def] at h
  split at h
  · exact Except.noConfusion h
  · split at h
    · exact Except.noConfusion h
    · cases cur with
      | none => exact Except.noConfusion h
      | some stored =>
        have hInvS : RoomInv stored := hInv
        obtain ⟨hp, hrev, hbrs⟩ := normalize_fields stored
        have hNorm : RoomInv (backfillBreakouts (backfillCreator stored)) :=
          roomInv_of_eq hInvS hp hbrs
        simp only [] at h
        split at h
        · exact Except.noConfusion h
        · split at h
          · exact Except.noConfusion h
          · split at h
            · exact Except.noConfusion h
            · split at h
              · exact Except.noConfusion h
              · cases h
                constructor
                · exact hNorm.capLe
                · exact hNorm.obsMain
                · intro br hbrm p hpm
                  simp only [brs, Option.getD_some] at hbrm
                  rcases List.mem_map.mp hbrm with ⟨i, hi, rfl⟩
                  have hik : i < _ := List.mem_range.mp hi
                  rw [assignments_getD _ _ i hik] at hpm
                  have hpv := bucketFrom_subset hpm
                  have := (List.mem_filter.mp hpv).2
                  simpa using this
                · intro br hbrm p hpm
                  simp only [brs, Option.getD_some] at hbrm
                  rcases List.mem_map.mp hbrm with ⟨i, hi, rfl⟩
                  have hik : i < _ := List.mem_range.mp hi
                  rw [assignments_getD _ _ i hik] at hpm
                  have hpv := bucketFrom_subset hpm
                  exact ⟨p, (List.mem_filter.mp hpv).1, rfl⟩
                · intro s
                  simp only [brs, Option.getD_some]
                  exact countP_newBrs_le _ _ genId c now s

/-- Pointwise `any`-congruence. -/
theorem any_congr_eq {α : Type} {l : List α} {p q : α → Bool}
    (h : ∀ x ∈ l, p x = q x) : l.any p = l.any q := by
  induction l with
  | nil => rfl
  | cons a t ih =>
    rw [List.any_cons, List.any_cons, h a (List.mem_cons_self a t),
      ih (fun x hx => h x (List.mem_cons_of_mem _ hx))]

/-- `find?` commutes with a map that does not change the tested predicate. -/
theorem find?_map_pred {α : Type} (g : α → α) (pred : α → Bool)
    (hpg : ∀ x, pred (g x) = pred x) (l : List α) :
    (l.map g).find? pred = Option.map g (l.find? pred) := by
  induction l with
  | nil => rfl
  | cons a t ih =>
    by_cases h : pred a = true
    · rw [List.map_cons, List.find?_cons_of_pos _ (by rw [hpg]; exact h),
        List.find?_cons_of_pos _ h]
      rfl
    · rw [List.map_cons, List.find?_cons_of_neg _ (by rw [hpg]; exact h),
        List.find?_cons_of_neg _ h, ih]

/-- Replacing the first matching breakout room by a function that preserves
player ids and observer flags keeps the invariant. -/
theorem roomInv_update_brs {r : Room} (hInv : RoomInv r) (pred : BreakoutRoom → Bool)
    (f : BreakoutRoom → BreakoutRoom)
    (hids : ∀ br s', ((f br).players.any (fun p => p.id == s')) =
      (br.players.any (fun p => p.id == s')))
    (hmem : ∀ br p, p ∈ (f br).players →
      ∃ p₀ ∈ br.players, p.id = p₀.id ∧ p.isObserver = p₀.isObserver) :
    RoomInv { r with breakoutRooms := some (updateFirstWhere pred f (brs r)) } := by
  constructor
  · exact hInv.capLe
  · exact hInv.obsMain
  · intro br hbrm p hpm
    simp only [brs, Option.getD_some] at hbrm
    rcases mem_updateFirstWhere hbrm with hm | ⟨br0, hbr0, rfl⟩
    · exact hInv.obsBr br hm p hpm
    · rcases hmem br0 p hpm with ⟨p₀, hp₀, _, hobs⟩
      rw [hobs]
      exact hInv.obsBr br0 hbr0 p₀ hp₀
  · intro br hbrm p hpm
    simp only [brs, Option.getD_some] at hbrm
    rcases mem_updateFirstWhere hbrm with hm | ⟨br0, hbr0, rfl⟩
    · exact hInv.idSubset br hm p hpm
    · rcases hmem br0 p hpm with ⟨p₀, hp₀, hid, _⟩
      rcases hInv.idSubset br0 hbr0 p₀ hp₀ with ⟨q, hq, hqid⟩
      exact ⟨q, hq, by rw [hqid, hid]⟩
  · intro s
    simp only [brs, Option.getD_some]
    rw [countP_updateFirstWhere pred f _ (fun x => hids x s)]
    exact hInv.brCount s

/-- `/leave-breakout-room` preserves the invariant. -/
theorem roomInv_handleLeaveBreakout {c pid : String} {cur : Option Room} {r2 : Room}
    (hInv : RoomInvO cur) (h : handleLeaveBreakout c pid cur = .ok r2) : RoomInv r2 := by
  rw [handleLeaveBreakout.eq_def] at h
  split at h
  · exact Except.noConfusion h
  · cases cur with
    | none => exact Except.noConfusion h
    | some found =>
      have hInvF : RoomInv found := hInv
      have hNorm : RoomInv (backfillBreakouts found) :=
        roomInv_of_eq hInvF (backfillBreakouts_players found) (brs_backfillBreakouts found)
      simp only [] at h
      cases h
      constructor
      · exact hNorm.capLe
      · exact hNorm.obsMain
      · intro br hbrm p hpm
        simp only [brs, Option.getD_some] at hbrm
        rcases List.mem_map.mp hbrm with ⟨br0, hbr0, rfl⟩
        exact hNorm.obsBr br0 hbr0 p (List.mem_filter.mp hpm).1
      · intro br hbrm p hpm
        simp only [brs, Option.getD_some] at hbrm
        rcases List.mem_map.mp hbrm with ⟨br0, hbr0, rfl⟩
        exact hNorm.idSubset br0 hbr0 p (List.mem_filter.mp hpm).1
      · intro s
        simp only [brs, Option.getD_some]
        by_cases hs : s = pid
        · subst hs
          have h0 : (((backfillBreakouts found).breakoutRooms.getD []).map (fun br =>
              { br with players := br.players.filter (fun p => p.id != s) })).countP
                (fun br => br.players.any (fun p => p.id == s)) = 0 := by
            rw [List.countP_eq_zero]
            intro br hbrm hany
            rcases List.mem_map.mp hbrm with ⟨br0, _, rfl⟩
            rw [not_contains_of_filtered] at hany
            exact Bool.noConfusion hany
          rw [h0]
          exact Nat.zero_le _
        · have step2 : (((backfillBreakouts found).breakoutRooms.getD []).map (fun br =>
              { br with players := br.players.filter (fun p => p.id != pid) })).countP
                (fun br => br.players.any (fun p => p.id == s)) ≤
              (((backfillBreakouts found).breakoutRooms.getD [])).countP
                (fun br => br.players.any (fun p => p.id == s)) := by
            rw [List.countP_map]
            apply List.countP_mono_left
            intro br _ hany
            exact any_of_any_filter hany
          exact step2.trans (hNorm.brCount s)

/-- `/breakout-room/vote` preserves the invariant. -/
theorem roomInv_handleBreakoutVote {c brId pid : String} {v : Option String} {now : Nat}
    {cur : Option Room} {r2 : Room} (hInv : RoomInvO cur)
    (h : handleBreakoutVote c brId pid v now cur = .ok r2) : RoomInv r2 := by
  rw [handleBreakoutVote.eq_def] at h
  split at h
  · exact Except.noConfusion h
  · split at h
    · exact Except.noConfusion h
    · cases cur with
      | none => exact Except.noConfusion h
      | some found =>
        have hInvF : RoomInv found := hInv
        have hNorm : RoomInv (backfillBreakouts found) :=
          roomInv_of_eq hInvF (backfillBreakouts_players found) (brs_backfillBreakouts found)
        simp only [] at h
        split at h
        · exact Except.noConfusion h
        · split at h
          · cases h
            apply roomInv_update_brs hNorm
            · intro br s'
              exact any_updateFirstWhere _ _ _ (fun x => by rfl) br.players
            · intro br p hpm
              rcases mem_updateFirstWhere hpm with hm | ⟨y, hy, rfl⟩
              · exact ⟨p, hm, rfl, rfl⟩
              · exact ⟨y, hy, rfl, rfl⟩
          · exact Except.noConfusion h

/-- `/breakout-room/reveal` preserves the invariant. -/
theorem roomInv_handleBreakoutReveal {c brId : String} {cur : Option Room} {r2 : Room}
    (hInv : RoomInvO cur) (h : handleBreakoutReveal c brId cur = .ok r2) : RoomInv r2 := by
  rw [handleBreakoutReveal.eq_def] at h
  split at h
  · exact Except.noConfusion h
  · cases cur with
    | none => exact Except.noConfusion h
    | some found =>
      have hInvF : RoomInv found := hInv
      have hNorm : RoomInv (backfillBreakouts found) :=
        roomInv_of_eq hInvF (backfillBreakouts_players found) (brs_backfillBreakouts found)
      simp only [] at h
      split at h
      · exact Except.noConfusion h
      · cases h
        apply roomInv_update_brs hNorm
        · intro br s'
          rfl
        · intro br p hpm
          exact ⟨p, hpm, rfl, rfl⟩

/-- `/breakout-room/reset` preserves the invariant. -/
theorem roomInv_handleBreakoutReset {c brId : String} {cur : Option Room} {r2 : Room}
    (hInv : RoomInvO cur) (h : handleBreakoutReset c brId cur = .ok r2) : RoomInv r2 := by
  rw [handleBreakoutReset.eq_def] at h
  split at h
  · exact Except.noConfusion h
  · cases cur with
    | none => exact Except.noConfusion h
    | some found =>
      have hInvF : RoomInv found := hInv
      have hNorm : RoomInv (backfillBreakouts found) :=
        roomInv_of_eq hInvF (backfillBreakouts_players found) (brs_backfillBreakouts found)
      simp only [] at h
      split at h
      · exact Except.noConfusion h
      · cases h
        apply roomInv_update_brs hNorm
        · intro br s'
          rw [List.any_map]
          exact any_congr_eq (fun x _ => rfl)
        · intro br p hpm
          rcases List.mem_map.mp hpm with ⟨y, hy, rfl⟩
          exact ⟨y, hy, rfl, rfl⟩

/-- `/delete-breakout-rooms` preserves the invariant. -/
theorem roomInv_handleDeleteBreakouts {c pid : String} {cur : Option Room} {r2 : Room}
    (hInv : RoomInvO cur) (h : handleDeleteBreakoutRooms c pid cur = .ok r2) : RoomInv r2 := by
  rw [handleDeleteBreakoutRooms.eq_def] at h
  split at h
  · exact Except.noConfusion h
  · cases cur with
    | none => exact Except.noConfusion h
    | some room =>
      have hInvR : RoomInv room := hInv
      simp only [] at h
      split at h
      · exact Except.noConfusion h
      · cases h
        constructor
        · exact hInvR.capLe
        · exact hInvR.obsMain
        · intro br hbrm
          simp [brs] at hbrm
        · intro br hbrm
          simp [brs] at hbrm
        · intro s
          simp [brs]

/-- Filtering out a different id keeps an `any`-witness for an id. -/
theorem any_filter_of_ne {ps : List Player} {s pid : String} (hs : s ≠ pid)
    (h : ps.any (fun p => p.id == s) = true) :
    (ps.filter (fun p => p.id != pid)).any (fun p => p.id == s) = true := by
  rw [List.any_eq_true] at h ⊢
  rcases h with ⟨p, hp, hps⟩
  exact ⟨p, List.mem_filter.mpr ⟨hp, bne_iff_ne.mpr (by rw [eq_of_beq hps]; exact hs)⟩, hps⟩

/-- Count bound for the breakout list produced by `/join-breakout-room`: clear
the player out of every breakout room, then write the (possibly extended)
original target over the first entry with the requested id. -/
theorem countP_joinBreakout_le (L : List BreakoutRoom) (mainPlayers : List Player)
    (pid brId : String) (target breakoutRoom : BreakoutRoom)
    (hplayerCnt : 0 < mainPlayers.countP (fun p => p.id == pid))
    (hfb : L.find? (fun br => br.id == brId) = some breakoutRoom)
    (htc2 : ∀ s, s ≠ pid → target.players.any (fun p => p.id == s) = true →
        breakoutRoom.players.any (fun p => p.id == s) = true)
    (hLbound : ∀ s, L.countP (fun br => br.players.any (fun p => p.id == s)) ≤
        mainPlayers.countP (fun p => p.id == s)) :
    ∀ s, (updateFirstWhere (fun br => br.id == brId) (fun _ => target)
        (L.map (fun br =>
          { br with players := br.players.filter (fun p => p.id != pid) }))).countP
          (fun br => br.players.any (fun p => p.id == s)) ≤
      mainPlayers.countP (fun p => p.id == s) := by
  intro s
  have hmapLe : ∀ s', (L.map (fun br =>
      { br with players := br.players.filter (fun p => p.id != pid) })).countP
        (fun br => br.players.any (fun p => p.id == s')) ≤
      mainPlayers.countP (fun p => p.id == s') := by
    intro s'
    have hstep : (L.map (fun br =>
        { br with players := br.players.filter (fun p => p.id != pid) })).countP
          (fun br => br.players.any (fun p => p.id == s')) ≤
        L.countP (fun br => br.players.any (fun p => p.id == s')) := by
      rw [List.countP_map]
      apply List.countP_mono_left
      intro br _ hany
      exact any_of_any_filter hany
    exact hstep.trans (hLbound s')
  rcases updateFirstWhere_spec (fun br => br.id == brId) (fun _ => target)
      (L.map (fun br => { br with players := br.players.filter (fun p => p.id != pid) }))
    with ⟨hnone, heq⟩ | ⟨l₁, m, l₂, hsplit, hm, hfind, hl₁, heq⟩
  · rw [heq]
    exact hmapLe s
  · have hmap := find?_map_pred
      (fun br => { br with players := br.players.filter (fun p => p.id != pid) })
      (fun br => br.id == brId) (fun x => rfl) L
    rw [hfb] at hmap
    have hm2 : m = { breakoutRoom with
        players := breakoutRoom.players.filter (fun p => p.id != pid) } :=
      Option.some.inj (hfind.symm.trans hmap)
    have hLc : (L.map (fun br =>
        { br with players := br.players.filter (fun p => p.id != pid) })).countP
          (fun br => br.players.any (fun p => p.id == s)) =
        l₁.countP (fun br => br.players.any (fun p => p.id == s)) +
          (l₂.countP (fun br => br.players.any (fun p => p.id == s)) +
            if (m.players.any (fun p => p.id == s)) = true then 1 else 0) := by
      rw [hsplit, List.countP_append, List.countP_cons]
    rw [heq, List.countP_append, List.countP_cons]
    by_cases hs : s = pid
    · subst hs
      have hmem1 : ∀ x ∈ l₁, x ∈ L.map (fun br =>
          { br with players := br.players.filter (fun p => p.id != s) }) := by
        intro x hx
        rw [hsplit]
        exact List.mem_append_left _ hx
      have hmem2 : ∀ x ∈ l₂, x ∈ L.map (fun br =>
          { br with players := br.players.filter (fun p => p.id != s) }) := by
        intro x hx
        rw [hsplit]
        exact List.mem_append.mpr (Or.inr (List.mem_cons_of_mem _ hx))
      have hz1 : l₁.countP (fun br => br.players.any (fun p => p.id == s)) = 0 := by
        rw [List.countP_eq_zero]
        intro x hx hany
        rcases List.mem_map.mp (hmem1 x hx) with ⟨br0, _, rfl⟩
        rw [not_contains_of_filtered] at hany
        exact Bool.noConfusion hany
      have hz2 : l₂.countP (fun br => br.players.any (fun p => p.id == s)) = 0 := by
        rw [List.countP_eq_zero]
        intro x hx hany
        rcases List.mem_map.mp (hmem2 x hx) with ⟨br0, _, rfl⟩
        rw [not_contains_of_filtered] at hany
        exact Bool.noConfusion hany
      rw [hz1, hz2]
      by_cases hqt : (target.players.any (fun p => p.id == s)) = true
      · rw [if_pos hqt]
        omega
      · rw [if_neg hqt]
        omega
    · have hql : (if (target.players.any (fun p => p.id == s)) = true then 1 else 0) ≤
          (if (m.players.any (fun p => p.id == s)) = true then 1 else 0) := by
        by_cases hqt : (target.players.any (fun p => p.id == s)) = true
        · have hqm : (m.players.any (fun p => p.id == s)) = true := by
            rw [hm2]
            exact any_filter_of_ne hs (htc2 s hs hqt)
          rw [if_pos hqt, if_pos hqm]
        · rw [if_neg hqt]
          omega
      have := hmapLe s
      omega

/-- `/join-breakout-room` preserves the invariant. -/
theorem roomInv_handleJoinBreakout {c pid brId : String} {cur : Option Room} {r2 : Room}
    (hInv : RoomInvO cur) (h : handleJoinBreakout c pid brId cur = .ok r2) : RoomInv r2 := by
  rw [handleJoinBreakout.eq_def] at h
  split at h
  · exact Except.noConfusion h
  · cases cur with
    | none => exact Except.noConfusion h
    | some found =>
      have hInvF : RoomInv found := hInv
      have hNorm : RoomInv (backfillBreakouts found) :=
        roomInv_of_eq hInvF (backfillBreakouts_players found) (brs_backfillBreakouts found)
      simp only [] at h
      cases hfp : (backfillBreakouts found).players.find? (fun p => p.id == pid) with
      | none =>
        rw [hfp] at h
        exact Except.noConfusion h
      | some player =>
        rw [hfp] at h
        simp only [] at h
        cases hfb : (brs (backfillBreakouts found)).find? (fun br => br.id == brId) with
        | none =>
          rw [hfb] at h
          exact Except.noConfusion h
        | some breakoutRoom =>
          rw [hfb] at h
          simp only [] at h
          cases h
          have hplayer : player ∈ (backfillBreakouts found).players :=
            List.mem_of_find?_eq_some hfp
          have hpid0 := List.find?_some hfp
          have hpid : (player.id == pid) = true := hpid0
          have hbmem : breakoutRoom ∈ brs (backfillBreakouts found) :=
            List.mem_of_find?_eq_some hfb
          have htp : ∀ p ∈ (if !(breakoutRoom.players.any (fun p => p.id == pid)) then
              { breakoutRoom with players := breakoutRoom.players ++ [player] }
              else breakoutRoom).players, p ∈ breakoutRoom.players ∨ p = player := by
            intro p hp
            by_cases hin : (!(breakoutRoom.players.any (fun p => p.id == pid))) = true
            · rw [if_pos hin] at hp
              rcases List.mem_append.mp hp with hm | hm
              · exact Or.inl hm
              · exact Or.inr (List.mem_singleton.mp hm)
            · rw [if_neg hin] at hp
              exact Or.inl hp
          constructor
          · exact hNorm.capLe
          · exact hNorm.obsMain
          · intro br hbrm p hpm
            simp only [brs, Option.getD_some] at hbrm
            rcases mem_updateFirstWhere hbrm with hmm | ⟨br0, _, rfl⟩
            · rcases List.mem_map.mp hmm with ⟨br1, hbr1, rfl⟩
              exact hNorm.obsBr br1 hbr1 p (List.mem_filter.mp hpm).1
            · rcases htp p hpm with hm | rfl
              · exact hNorm.obsBr breakoutRoom hbmem p hm
              · exact hNorm.obsMain p hplayer
          · intro br hbrm p hpm
            simp only [brs, Option.getD_some] at hbrm
            rcases mem_updateFirstWhere hbrm with hmm | ⟨br0, _, rfl⟩
            · rcases List.mem_map.mp hmm with ⟨br1, hbr1, rfl⟩
              exact hNorm.idSubset br1 hbr1 p (List.mem_filter.mp hpm).1
            · rcases htp p hpm with hm | rfl
              · exact hNorm.idSubset breakoutRoom hbmem p hm
              · exact ⟨p, hplayer, rfl⟩
          · intro s
            have hcnt : 0 < (backfillBreakouts found).players.countP (fun p => p.id == pid) :=
              List.countP_pos_iff.mpr ⟨player, hplayer, hpid⟩
            have htc2 : ∀ s', s' ≠ pid →
                ((if !(breakoutRoom.players.any (fun p => p.id == pid)) then
                  { breakoutRoom with players := breakoutRoom.players ++ [player] }
                  else breakoutRoom).players.any (fun p => p.id == s')) = true →
                breakoutRoom.players.any (fun p => p.id == s') = true := by
              intro s' hs' hany
              by_cases hin : (!(breakoutRoom.players.any (fun p => p.id == pid))) = true
              · rw [if_pos hin] at hany
                rw [List.any_eq_true] at hany
                rcases hany with ⟨p, hp, hps⟩
                rcases List.mem_append.mp hp with hm | hm
                · exact List.any_eq_true.mpr ⟨p, hm, hps⟩
                · exfalso
                  rw [List.mem_singleton.mp hm] at hps
                  exact hs' ((eq_of_beq hps).symm.trans (eq_of_beq hpid))
              · rw [if_neg hin] at hany
                exact hany
            exact countP_joinBreakout_le (brs (backfillBreakouts found))
              (backfillBreakouts found).players pid brId _ breakoutRoom hcnt hfb htc2
              hNorm.brCount s

/-- Every engine command preserves the invariant. -/
theorem roomInvO_stepCmd (cmd : Cmd) (s : Option Room) (hInv : RoomInvO s) :
    RoomInvO (stepCmd cmd s) := by
  cases cmd with
  | create pn pid rands collisions now =>
    cases s with
    | some r => exact hInv
    | none =>
      show RoomInvO (applyOk (createRoom pn pid rands collisions now) none)
      cases hc : createRoom pn pid rands collisions now with
      | ok r =>
        exact roomInv_createRoom hc
      | error e =>
        trivial
  | join c pn pid now =>
    show RoomInvO (applyOk (handleJoinRoom c pn pid now s) s)
    cases hc : handleJoinRoom c pn pid now s with
    | ok r =>
      exact roomInv_handleJoinRoom hInv hc
    | error e =>
      exact hInv
  | vote c pid v now =>
    show RoomInvO (applyOk (handleVote c pid v now s) s)
    cases hc : handleVote c pid v now s with
    | ok r =>
      exact roomInv_handleVote hInv hc
    | error e =>
      exact hInv
  | reveal c =>
    show RoomInvO (applyOk (handleReveal c s) s)
    cases hc : handleReveal c s with
    | ok r =>
      exact roomInv_handleReveal hInv hc
    | error e =>
      exact hInv
  | reset c =>
    show RoomInvO (applyOk (handleReset c s) s)
    cases hc : handleReset c s with
    | ok r =>
      exact roomInv_handleReset hInv hc
    | error e =>
      exact hInv
  | leave c pid =>
    show RoomInvO (match handleLeave c pid s with | .ok o => o | .error _ => s)
    cases hc : handleLeave c pid s with
    | ok o =>
      cases o with
      | none => trivial
      | some r2 => exact roomInv_handleLeave hInv hc
    | error e =>
      exact hInv
  | createBreakouts c pid n genId now =>
    show RoomInvO (applyOk (handleCreateBreakoutRooms c pid n genId now s) s)
    cases hc : handleCreateBreakoutRooms c pid n genId now s with
    | ok r =>
      exact roomInv_handleCreateBreakouts hInv hc
    | error e =>
      exact hInv
  | joinBreakout c pid brId =>
    show RoomInvO (applyOk (handleJoinBreakout c pid brId s) s)
    cases hc : handleJoinBreakout c pid brId s with
    | ok r =>
      exact roomInv_handleJoinBreakout hInv hc
    | error e =>
      exact hInv
  | leaveBreakout c pid =>
    show RoomInvO (applyOk (handleLeaveBreakout c pid s) s)
    cases hc : handleLeaveBreakout c pid s with
    | ok r =>
      exact roomInv_handleLeaveBreakout hInv hc
    | error e =>
      exact hInv
  | breakoutVote c brId pid v now =>
    show RoomInvO (applyOk (handleBreakoutVote c brId pid v now s) s)
    cases hc : handleBreakoutVote c brId pid v now s with
    | ok r =>
      exact roomInv_handleBreakoutVote hInv hc
    | error e =>
      exact hInv
  | breakoutReveal c brId =>
    show RoomInvO (applyOk (handleBreakoutReveal c brId s) s)
    cases hc : handleBreakoutReveal c brId s with
    | ok r =>
      exact roomInv_handleBreakoutReveal hInv hc
    | error e =>
      exact hInv
  | breakoutReset c brId =>
    show RoomInvO (applyOk (handleBreakoutReset c brId s) s)
    cases hc : handleBreakoutReset c brId s with
    | ok r =>
      exact roomInv_handleBreakoutReset hInv hc
    | error e =>
      exact hInv
  | deleteBreakouts c pid =>
    show RoomInvO (applyOk (handleDeleteBreakoutRooms c pid s) s)
    cases hc : handleDeleteBreakoutRooms c pid s with
    | ok r =>
      exact roomInv_handleDeleteBreakouts hInv hc
    | error e =>
      exact hInv

/-- Command sequences started on an absent room keep the invariant. -/
theorem roomInvO_foldl (cmds : List Cmd) :
    ∀ s : Option Room, RoomInvO s → RoomInvO (cmds.foldl (fun st c => stepCmd c st) s) := by
  induction cmds with
  | nil => intro s hs; exact hs
  | cons c t ih =>
    intro s hs
    exact ih (stepCmd c s) (roomInvO_stepCmd c s hs)

/-- Every reachable room state satisfies the invariant. -/
theorem roomInv_reachable {s : Option Room} (h : Reachable s) : RoomInvO s := by
  rcases h with ⟨cmds, hc⟩
  rw [← hc]
  exact roomInvO_foldl cmds none trivial

/-! ### Claim theorems -/

/-- C8: for every existing room, RevealVotes sets `revealed := true` and
changes nothing else, and applying RevealVotes twice in a row yields exactly
the same room state as applying it once. -/
theorem C8_reveal_idempotent (c : String) (room : Room)
    (hc : validateRoomCode c = true) :
    handleReveal c (some room) = .ok { room with revealed := true } ∧
    (∀ r1, handleReveal c (some room) = .ok r1 → handleReveal c (some r1) = .ok r1) := by
  have hstep : ∀ r0 : Room, handleReveal c (some r0) = .ok { r0 with revealed := true } := by
    intro r0
    rw [handleReveal.eq_def, if_neg (by simp [hc])]
  refine ⟨hstep room, ?_⟩
  intro r1 h1
  have hr1 : { room with revealed := true } = r1 :=
    Except.ok.inj ((hstep room).symm.trans h1)
  subst hr1
  exact hstep _

/-- C8 witness at the concrete room of the scenario. -/
theorem C8_witness :
    handleReveal "ABC123" (some scenRoom) = .ok { scenRoom with revealed := true } ∧
    (∀ r1, handleReveal "ABC123" (some scenRoom) = .ok r1 →
      handleReveal "ABC123" (some r1) = .ok r1) :=
  C8_reveal_idempotent "ABC123" scenRoom (by decide)

/-- C7: SubmitVote(c, p, "8") followed by ResetRound(c) yields an absent vote
for every main-room player (p included) and `revealed = false`, regardless of
the prior revealed state, while the breakout-room collection (votes and
reveal flags included) is exactly the one the room had before both commands. -/
theorem C7_reset_roundtrip (c p : String) (now : Nat) (room r1 r2 : Room)
    (hc : validateRoomCode c = true) (hp : validatePlayerId p = true)
    (h1 : handleVote c p (some "8") now (some room) = .ok r1)
    (h2 : handleReset c (some r1) = .ok r2) :
    (∀ q ∈ r2.players, q.vote = none) ∧ r2.revealed = false ∧
      r2.breakoutRooms = room.breakoutRooms := by
  rw [handleVote.eq_def, if_neg (by simp [hc, hp]), if_neg (by decide)] at h1
  simp only [] at h1
  split at h1
  · have hr1 := Except.ok.inj h1
    rw [handleReset.eq_def, if_neg (by simp [hc])] at h2
    simp only [] at h2
    have hr2 := Except.ok.inj h2
    rw [← hr2, ← hr1]
    refine ⟨?_, rfl, rfl⟩
    intro q hq
    rcases List.mem_map.mp hq with ⟨y, _, rfl⟩
    rfl
  · exact Except.noConfusion h1

/-- C7 witness at the concrete scenario room. -/
theorem C7_witness :
    (∀ q ∈ scenR2.players, q.vote = none) ∧ scenR2.revealed = false ∧
      scenR2.breakoutRooms = scenRoom.breakoutRooms :=
  C7_reset_roundtrip "ABC123" "P2" 9 scenRoom scenR1 scenR2 (by decide) (by decide)
    (by rfl) (by rfl)

/-- C4: a vote value outside the closed card set is rejected as invalid input
(status 400, the spec's `InvalidInput`) before the room is even loaded and
leaves the store unchanged; a missing player is rejected as not-found (404);
for a valid vote and an existing player the command replaces exactly the
first player entry with that id, setting its `vote` and `lastSeen` and
nothing else, leaving every other player and the `revealed` flag unchanged —
and since no hypothesis on `room.revealed` is needed, the command is accepted
even when `revealed = true`. -/
theorem C4_submit_vote (c pid : String) (now : Nat)
    (hc : validateRoomCode c = true) (hp : validatePlayerId pid = true) :
    (∀ (v : String) (cur : Option Room), (some v) ∉ validVotes →
      handleVote c pid (some v) now cur = .error (errorResponse "Invalid vote value" 400) ∧
      ∀ store : String → Option Room,
        runEndpoint ("room:" ++ c) (handleVote c pid (some v) now) store = store) ∧
    (∀ (v : Option String) (room : Room), voteInvalid v = false →
      room.players.any (fun p => p.id == pid) = false →
      handleVote c pid v now (some room) =
        .error (errorResponse "Player not found in room" 404)) ∧
    (∀ (v : Option String) (room : Room), voteInvalid v = false →
      room.players.any (fun p => p.id == pid) = true →
      ∃ l₁ m l₂, room.players = l₁ ++ m :: l₂ ∧ (m.id == pid) = true ∧
        (∀ x ∈ l₁, (x.id == pid) = false) ∧
        handleVote c pid v now (some room) =
          .ok { room with players := l₁ ++ { m with vote := v, lastSeen := now } :: l₂ }) := by
  refine ⟨?_, ?_, ?_⟩
  · intro v cur hv
    have hcontains : validVotes.contains (some v) = false := by
      cases hcv : validVotes.contains (some v)
      · rfl
      · exact absurd (List.elem_iff.mp hcv) hv
    have hinv : voteInvalid (some v) = true := by
      unfold voteInvalid
      rw [hcontains]
      rfl
    have herr : ∀ cur0 : Option Room, handleVote c pid (some v) now cur0 =
        .error (errorResponse "Invalid vote value" 400) := by
      intro cur0
      rw [handleVote.eq_def, if_neg (by simp [hc, hp]), if_pos hinv]
    refine ⟨herr cur, ?_⟩
    intro store
    rw [runEndpoint, herr (store ("room:" ++ c))]
  · intro v room hv hany
    rw [handleVote.eq_def, if_neg (by simp [hc, hp]), if_neg (by simp [hv])]
    simp only []
    rw [if_neg (by simp [hany])]
  · intro v room hv hany
    rcases updateFirstWhere_spec (fun p => p.id == pid)
        (fun p => { p with vote := v, lastSeen := now }) room.players
      with ⟨hnone, _⟩ | ⟨l₁, m, l₂, hsplit, hm, _, hl₁, hupd⟩
    · exfalso
      rw [List.find?_eq_none] at hnone
      rw [List.any_eq_true] at hany
      rcases hany with ⟨p, hpm, hpp⟩
      exact hnone p hpm hpp
    · refine ⟨l₁, m, l₂, hsplit, hm, ?_, ?_⟩
      · intro x hx
        cases hxe : x.id == pid
        · rfl
        · exact absurd hxe (by rw [hl₁ x hx]; exact Bool.noConfusion)
      · rw [handleVote.eq_def, if_neg (by simp [hc, hp]), if_neg (by simp [hv])]
        simp only []
        rw [if_pos hany, hupd]

/-- C4 witness: the invalid vote "7" on the scenario room, and a valid vote
by an existing player. -/
theorem C4_witness :
    (handleVote "ABC123" "P2" (some "7") 9 (some scenRoom) =
      .error (errorResponse "Invalid vote value" 400) ∧
      runEndpoint ("room:" ++ "ABC123") (handleVote "ABC123" "P2" (some "7") 9)
        scenStore = scenStore) ∧
    (∃ l₁ m l₂, scenRoom.players = l₁ ++ m :: l₂ ∧ (m.id == "P2") = true ∧
      (∀ x ∈ l₁, (x.id == "P2") = false) ∧
      handleVote "ABC123" "P2" (some "8") 9 (some scenRoom) =
        .ok { scenRoom with players := l₁ ++ { m with vote := some "8", lastSeen := 9 } :: l₂ }) := by
  have h := C4_submit_vote "ABC123" "P2" 9 (by decide) (by decide)
  refine ⟨?_, h.2.2 (some "8") scenRoom (by decide) (by decide)⟩
  have h1 := h.1 "7" (some scenRoom) (by decide)
  exact ⟨h1.1, h1.2 scenStore⟩

/-- C6: the main player list of every reachable room has at most 50 entries;
a JoinRoom with a new playerId against a room already holding 50 players is
rejected ("Room is full", status 400 — the spec's `Conflict` category) and
leaves the store unchanged, while a JoinRoom with an already-present playerId
is a reconnect and succeeds regardless of the cap, not changing the player
count. -/
theorem C6_player_cap :
    (∀ s, Reachable s → ∀ r, s = some r → r.players.length ≤ 50) ∧
    (∀ (c pn pid : String) (now : Nat) (room : Room),
      validateRoomCode c = true → validatePlayerName pn = true →
      validatePlayerId pid = true →
      room.players.length = 50 →
      room.players.any (fun p => p.id == pid) = false →
      handleJoinRoom c pn pid now (some room) = .error (errorResponse "Room is full" 400) ∧
      ∀ store : String → Option Room, store ("room:" ++ c) = some room →
        runEndpoint ("room:" ++ c) (handleJoinRoom c pn pid now) store = store) ∧
    (∀ (c pn pid : String) (now : Nat) (room : Room),
      validateRoomCode c = true → validatePlayerName pn = true →
      validatePlayerId pid = true →
      room.players.any (fun p => p.id == pid) = true →
      ∃ r2, handleJoinRoom c pn pid now (some room) = .ok r2 ∧
        r2.players.length = room.players.length) := by
  refine ⟨?_, ?_, ?_⟩
  · intro s hs r hr
    have hInv := roomInv_reachable hs
    rw [hr] at hInv
    exact hInv.capLe
  · intro c pn pid now room hc hn hp hlen hany
    have herr : handleJoinRoom c pn pid now (some room) =
        .error (errorResponse "Room is full" 400) := by
      rw [handleJoinRoom.eq_def, if_neg (by simp [hc, hn, hp])]
      simp only []
      rw [backfillBreakouts_players, backfillCreator_players,
        if_neg (by simp [hany]), if_pos (by omega)]
    refine ⟨herr, ?_⟩
    intro store hstore
    rw [runEndpoint, hstore, herr]
  · intro c pn pid now room hc hn hp hany
    refine ⟨{ backfillBreakouts (backfillCreator room) with
        players := updateFirstWhere (fun p => p.id == pid)
          (fun p => { p with lastSeen := now, name := strTrim pn }) room.players }, ?_, ?_⟩
    · rw [handleJoinRoom.eq_def, if_neg (by simp [hc, hn, hp])]
      simp only []
      rw [backfillBreakouts_players, backfillCreator_players, if_pos hany]
    · show (updateFirstWhere _ _ room.players).length = room.players.length
      exact updateFirstWhere_length _ _ _

/-- C6 witness: a 50-player room rejects a fresh join and accepts a
reconnect. -/
theorem C6_witness :
    (handleJoinRoom "ABC123" "Zed" "zz" 7 (some capRoom) =
      .error (errorResponse "Room is full" 400)) ∧
    (∃ r2, handleJoinRoom "ABC123" "Zed" "p7" 7 (some capRoom) = .ok r2 ∧
      r2.players.length = capRoom.players.length) := by
  have h := C6_player_cap
  refine ⟨(h.2.1 "ABC123" "Zed" "zz" 7 capRoom (by decide) (by decide) (by decide)
    (by decide) (by decide)).1, ?_⟩
  exact h.2.2 "ABC123" "Zed" "p7" 7 capRoom (by decide) (by decide) (by decide) (by decide)

/-- C9: the creator predicate compares `creatorId` with the caller when the
field is set (present and non-empty, mirroring the source's truthiness test),
and otherwise falls back to the first player's id; a caller for which the
predicate is false receives Forbidden (403) from both CreateBreakoutRooms and
DeleteBreakoutRooms, with the stored room left unchanged. -/
theorem C9_creator_auth :
    (∀ (room : Room) (pid : String),
      (∀ cid, room.creatorId = some cid → cid ≠ "" →
        (isRoomCreatorRoom room pid = true ↔ cid = pid)) ∧
      ((room.creatorId = none ∨ room.creatorId = some "") →
        (isRoomCreatorRoom room pid = true ↔
          ∃ p₀ l, room.players = p₀ :: l ∧ p₀.id = pid))) ∧
    (∀ (c pid : String) (n : Int) (genId : Nat → String) (now : Nat) (room : Room),
      validateRoomCode c = true → validatePlayerId pid = true →
      2 ≤ n → n ≤ 10 →
      isRoomCreatorRoom room pid = false →
      handleCreateBreakoutRooms c pid n genId now (some room) =
        .error (errorResponse "Only room creator can create breakout rooms" 403) ∧
      ∀ store : String → Option Room, store ("room:" ++ c) = some room →
        runEndpoint ("room:" ++ c) (handleCreateBreakoutRooms c pid n genId now)
          store = store) ∧
    (∀ (c pid : String) (room : Room),
      validateRoomCode c = true → validatePlayerId pid = true →
      isRoomCreatorRoom room pid = false →
      handleDeleteBreakoutRooms c pid (some room) =
        .error (errorResponse "Only room creator can delete breakout rooms" 403) ∧
      ∀ store : String → Option Room, store ("room:" ++ c) = some room →
        runEndpoint ("room:" ++ c) (handleDeleteBreakoutRooms c pid) store = store) := by
  refine ⟨?_, ?_, ?_⟩
  · intro room pid
    constructor
    · intro cid hcid hne
      rw [isRoomCreatorRoom, hcid]
      have hf : strFalsy (some cid) = false := by
        cases he : cid.isEmpty
        · rw [strFalsy]
          exact he
        · exact absurd ((String.isEmpty_iff cid).mp he) hne
      rw [hf]
      simp only [Bool.not_false, if_true]
      constructor
      · intro h
        exact (Option.some.inj (eq_of_beq h)).symm ▸ rfl
      · intro h
        rw [h]
        exact beq_iff_eq.mpr rfl
    · intro hcid
      have hf : strFalsy room.creatorId = true := by
        rcases hcid with h | h <;> rw [h] <;> rfl
      rw [isRoomCreatorRoom, hf]
      simp only [Bool.not_true, if_false]
      cases hpl : room.players with
      | nil =>
        constructor
        · intro h
          exact Bool.noConfusion h
        · rintro ⟨p₀, l, hl, _⟩
          exact List.noConfusion hl
      | cons p₀ l =>
        constructor
        · intro h
          exact ⟨p₀, l, rfl, eq_of_beq h⟩
        · rintro ⟨p₁, l₁, hl, hid⟩
          have hp : p₀ = p₁ := (List.cons.inj hl).1
          rw [hp]
          exact beq_iff_eq.mpr hid
  · intro c pid n genId now room hc hp h2 h10 hcr
    have herr : handleCreateBreakoutRooms c pid n genId now (some room) =
        .error (errorResponse "Only room creator can create breakout rooms" 403) := by
      rw [handleCreateBreakoutRooms.eq_def, if_neg (by simp [hc, hp]),
        if_neg (by simp only [Bool.or_eq_true, decide_eq_true_eq]; omega)]
      simp only []
      rw [if_pos (by rw [hcr]; rfl)]
    refine ⟨herr, ?_⟩
    intro store hstore
    rw [runEndpoint, hstore, herr]
  · intro c pid room hc hp hcr
    have herr : handleDeleteBreakoutRooms c pid (some room) =
        .error (errorResponse "Only room creator can delete breakout rooms" 403) := by
      rw [handleDeleteBreakoutRooms.eq_def, if_neg (by simp [hc, hp])]
      simp only []
      rw [if_pos (by rw [hcr]; rfl)]
    refine ⟨herr, ?_⟩
    intro store hstore
    rw [runEndpoint, hstore, herr]

/-- C9 witness: P2 is not the creator of the scenario room and is rejected by
both privileged commands; the store is untouched. -/
theorem C9_witness :
    (isRoomCreatorRoom scenRoom "P1" = true ↔ ("P1" : String) = "P1") ∧
    (handleCreateBreakoutRooms "ABC123" "P2" 2 bbGenId 5 (some scenRoom) =
      .error (errorResponse "Only room creator can create breakout rooms" 403)) ∧
    (handleDeleteBreakoutRooms "ABC123" "P2" (some scenRoom) =
      .error (errorResponse "Only room creator can delete breakout rooms" 403) ∧
      runEndpoint ("room:" ++ "ABC123") (handleDeleteBreakoutRooms "ABC123" "P2")
        scenStore = scenStore) := by
  have h := C9_creator_auth
  refine ⟨(h.1 scenRoom "P1").1 "P1" rfl (by decide), ?_, ?_⟩
  · exact (h.2.1 "ABC123" "P2" 2 bbGenId 5 scenRoom (by decide) (by decide) (by decide)
      (by decide) (by decide)).1
  · have hd := h.2.2 "ABC123" "P2" scenRoom (by decide) (by decide) (by decide)
    exact ⟨hd.1, hd.2 scenStore (by rw [scenStore, if_pos rfl])⟩

/-- C5: every successful CreateRoom yields a room with exactly one player
(the creator, whose id also becomes `creatorId`), `revealed = false`, an
empty breakout collection, and a code matching `^[A-Z0-9]{6}$` (given the
in-range random draws `Math.random` guarantees); and when the initial
candidate code and all 10 retries collide with stored rooms, the command
fails with status 500. -/
theorem C5_create_room (pn pid : String) (rands : Nat → Fin 6 → Nat)
    (store : String → Option Room) (now : Nat)
    (hn : validatePlayerName pn = true) (hi : validatePlayerId pid = true)
    (hrand : ∀ k i, rands k i < 36) :
    (∀ r, createRoom pn pid rands store now = .ok r →
      r.players = [newPlayer pn pid now] ∧ r.revealed = false ∧
      r.creatorId = some ((newPlayer pn pid now).id) ∧ r.breakoutRooms = some [] ∧
      validateRoomCode r.code = true) ∧
    ((∀ j, j ≤ 10 → (store ("room:" ++ generateRoomCode (rands j))).isSome = true) →
      createRoom pn pid rands store now =
        .error (errorResponse "Failed to generate unique room code" 500)) := by
  constructor
  · intro r h
    rw [createRoom.eq_def, if_neg (by simp [hn, hi])] at h
    simp only [] at h
    split at h
    · exact Except.noConfusion h
    · have hr := Except.ok.inj h
      obtain ⟨j, hj⟩ := codeLoop_code_mem (fun k => generateRoomCode (rands k)) store 10 1
        (generateRoomCode (rands 0))
        (store ("room:" ++ generateRoomCode (rands 0))) ⟨0, rfl⟩
      rw [← hr]
      refine ⟨rfl, rfl, rfl, rfl, ?_⟩
      show validateRoomCode (codeLoop (fun k => generateRoomCode (rands k)) store 10 1
        (generateRoomCode (rands 0)) (store ("room:" ++ generateRoomCode (rands 0)))).1 = true
      rw [hj]
      exact validate_generateRoomCode (rands j) (hrand j)
  · intro hall
    have hcol : ((codeLoop (fun k => generateRoomCode (rands k)) store 10 1
        (generateRoomCode (rands 0))
        (store ("room:" ++ generateRoomCode (rands 0)))).2).isSome = true := by
      apply codeLoop_all_collide
      · exact hall 0 (by omega)
      · intro j hj1 hj2
        exact hall j (by omega)
    rw [createRoom.eq_def, if_neg (by simp [hn, hi])]
    simp only []
    rw [if_pos hcol]

/-- C5 witness: a concrete creation on an empty store. -/
theorem C5_witness :
    createdRoomEx.players = [newPlayer "Alice" "P1" 0] ∧ createdRoomEx.revealed = false ∧
    createdRoomEx.creatorId = some ((newPlayer "Alice" "P1" 0).id) ∧
    createdRoomEx.breakoutRooms = some [] ∧
    validateRoomCode createdRoomEx.code = true :=
  (C5_create_room "Alice" "P1" seqRands emptyStore 0 (by decide) (by decide)
    (fun k i => by show i.val < 36; have h := i.isLt; omega)).1 createdRoomEx (by rfl)

/-- A successful `/leave` that keeps the room removes the player from the
main list and from every breakout room and prunes empty breakout rooms. -/
theorem handleLeave_some_spec {c pid : String} {room r2 : Room}
    (h : handleLeave c pid (some room) = .ok (some r2)) :
    r2.players = room.players.filter (fun q => q.id != pid) ∧
    (∀ br ∈ brs r2, (∀ q ∈ br.players, (q.id != pid) = true) ∧ 0 < br.players.length) := by
  rw [handleLeave.eq_def] at h
  split at h
  · exact Except.noConfusion h
  · simp only [] at h
    cases hbr : room.breakoutRooms with
    | none =>
      rw [hbr] at h
      simp only [] at h
      split at h
      · exact Option.noConfusion (Except.ok.inj h)
      · have hr2 := (Option.some.inj (Except.ok.inj h)).symm
        subst hr2
        refine ⟨rfl, ?_⟩
        intro br hbrm
        simp [brs] at hbrm
    | some brList =>
      rw [hbr] at h
      simp only [] at h
      split at h
      · exact Option.noConfusion (Except.ok.inj h)
      · have hr2 := (Option.some.inj (Except.ok.inj h)).symm
        subst hr2
        refine ⟨rfl, ?_⟩
        intro br hbrm
        simp only [brs, Option.getD_some] at hbrm
        rcases List.mem_filter.mp hbrm with ⟨hmm, hpos⟩
        rcases List.mem_map.mp hmm with ⟨br0, _, rfl⟩
        refine ⟨?_, by simpa using hpos⟩
        intro q hq
        exact (List.mem_filter.mp hq).2

/-- C3: LeaveRoom removes the player from the main players collection and
from every breakout room, prunes any breakout room left empty, and when the
main collection becomes empty deletes the room document entirely, so that a
subsequent load of that room code returns absent. -/
theorem C3_leave_room (c pid : String) (room : Room)
    (hc : validateRoomCode c = true) (hp : validatePlayerId pid = true) :
    (∀ r2, handleLeave c pid (some room) = .ok (some r2) →
      (∀ q ∈ r2.players, q.id ≠ pid) ∧
      r2.players = room.players.filter (fun q => q.id != pid) ∧
      (∀ br ∈ brs r2, (∀ q ∈ br.players, q.id ≠ pid) ∧ br.players ≠ [])) ∧
    (room.players.filter (fun q => q.id != pid) = [] →
      handleLeave c pid (some room) = .ok none) ∧
    (∀ store : String → Option Room, store ("room:" ++ c) = some room →
      room.players.filter (fun q => q.id != pid) = [] →
      runLeaveEndpoint ("room:" ++ c) (handleLeave c pid) store ("room:" ++ c) = none) := by
  have hdel : room.players.filter (fun q => q.id != pid) = [] →
      handleLeave c pid (some room) = .ok none := by
    intro hemp
    rw [handleLeave.eq_def, if_neg (by simp [hc, hp])]
    simp only []
    cases hbr : room.breakoutRooms with
    | none =>
      simp only []
      rw [if_pos (by rw [hemp]; rfl)]
    | some brList =>
      simp only []
      rw [if_pos (by show ((room.players.filter (fun q => q.id != pid)).length == 0) = true
                     rw [hemp]
                     rfl)]
  refine ⟨?_, hdel, ?_⟩
  · intro r2 h
    obtain ⟨hpl, hbrs⟩ := handleLeave_some_spec h
    refine ⟨?_, hpl, ?_⟩
    · intro q hq
      rw [hpl] at hq
      exact bne_iff_ne.mp (List.mem_filter.mp hq).2
    · intro br hbrm
      obtain ⟨hq, hpos⟩ := hbrs br hbrm
      exact ⟨fun q hqm => bne_iff_ne.mp (hq q hqm), List.length_pos.mp hpos⟩
  · intro store hstore hemp
    rw [runLeaveEndpoint, hstore, hdel hemp]
    show (if ("room:" ++ c) = ("room:" ++ c) then none else store ("room:" ++ c)) = none
    rw [if_pos rfl]

/-- C3 witness: P2 leaves the scenario room (room survives), and the sole
player of a one-player room leaves (room deleted, load returns absent). -/
theorem C3_witness :
    ((∀ q ∈ leaveRoomEx.players, q.id ≠ "P2") ∧
      leaveRoomEx.players = scenRoom.players.filter (fun q => q.id != "P2") ∧
      (∀ br ∈ brs leaveRoomEx, (∀ q ∈ br.players, q.id ≠ "P2") ∧ br.players ≠ [])) ∧
    handleLeave "ABC123" "P1" (some joinedRoom) = .ok none := by
  have h3 := C3_leave_room "ABC123" "P2" scenRoom (by decide) (by decide)
  refine ⟨h3.1 leaveRoomEx (by rfl), ?_⟩
  exact (C3_leave_room "ABC123" "P1" joinedRoom (by decide) (by decide)).2.1 (by decide)

/-- C10: every player object built by the engine's creation sites has
`isObserver = false` and an absent vote, no command ever sets `isObserver`,
so in every reachable room all main and breakout players are non-observers
and the observer-exclusion filter over the main players is vacuous. -/
theorem C10_observers :
    (∀ (pn pid : String) (now : Nat),
      (newPlayer pn pid now).isObserver = false ∧ (newPlayer pn pid now).vote = none) ∧
    (∀ s, Reachable s → ∀ r, s = some r →
      (∀ p ∈ r.players, p.isObserver = false) ∧
      (∀ br ∈ brs r, ∀ p ∈ br.players, p.isObserver = false) ∧
      r.players.filter (fun p => !p.isObserver) = r.players) := by
  refine ⟨fun pn pid now => ⟨rfl, rfl⟩, ?_⟩
  intro s hs r hr
  have hInv := roomInv_reachable hs
  rw [hr] at hInv
  have hInvR : RoomInv r := hInv
  refine ⟨hInvR.obsMain, hInvR.obsBr, ?_⟩
  rw [List.filter_eq_self]
  intro p hp
  rw [hInvR.obsMain p hp]
  rfl

/-- C10 witness: the creation-site player and a concrete reachable room. -/
theorem C10_witness :
    ((newPlayer "Alice" "P1" 0).isObserver = false ∧
      (newPlayer "Alice" "P1" 0).vote = none) ∧
    (∀ p ∈ joinedRoom.players, p.isObserver = false) ∧
    joinedRoom.players.filter (fun p => !p.isObserver) = joinedRoom.players := by
  refine ⟨C10_observers.1 "Alice" "P1" 0, ?_, ?_⟩
  · exact (C10_observers.2 (applyCmds [Cmd.join "ABC123" "Alice" "P1" 1])
      ⟨[Cmd.join "ABC123" "Alice" "P1" 1], rfl⟩ joinedRoom (by rfl)).1
  · exact (C10_observers.2 (applyCmds [Cmd.join "ABC123" "Alice" "P1" 1])
      ⟨[Cmd.join "ABC123" "Alice" "P1" 1], rfl⟩ joinedRoom (by rfl)).2.2


/-- C2: under the stated preconditions (creator caller, `numBreakouts` in
[2,10], at least 2 non-observer players, not revealed, no non-observer vote
cast, and — per the data-model invariant — distinct player ids), the
effective count is `min(numBreakouts, floor(nonObserverCount/2))`: below 2
the command is rejected ("not enough players", status 400, the spec's
`Conflict`), otherwise exactly that many breakout rooms are created,
replacing any pre-existing collection wholesale, with non-observer player `i`
(in room order) assigned to breakout `i mod effectiveCount` and appearing in
exactly that one breakout room.  The final conjunct checks the concrete
scenario: players P1..P4 with numBreakouts = 2 yield breakouts {P1,P3} and
{P2,P4}. -/
theorem C2_create_breakouts :
    (∀ (c pid : String) (n : Int) (genId : Nat → String) (now : Nat) (room : Room),
      validateRoomCode c = true → validatePlayerId pid = true →
      2 ≤ n → n ≤ 10 →
      isRoomCreatorRoom room pid = true →
      room.revealed = false →
      2 ≤ (votingPlayers room).length →
      (∀ p ∈ votingPlayers room, p.vote = none) →
      (room.players.map (fun p => p.id)).Nodup →
      (min n (((votingPlayers room).length / 2 : Nat) : Int) < 2 →
        handleCreateBreakoutRooms c pid n genId now (some room) =
          .error (errorResponse
            "Not enough players to create breakout rooms (need at least 4 players)" 400)) ∧
      (2 ≤ min n (((votingPlayers room).length / 2 : Nat) : Int) →
        ∃ brsNew, (∃ r2, handleCreateBreakoutRooms c pid n genId now (some room) = .ok r2 ∧
            r2.players = room.players ∧ r2.breakoutRooms = some brsNew) ∧
          brsNew.length = (min n (((votingPlayers room).length / 2 : Nat) : Int)).toNat ∧
          (∀ b (hb : b < brsNew.length),
            (brsNew.get ⟨b, hb⟩).players = bucketFrom brsNew.length b 0 (votingPlayers room)) ∧
          (∀ i (hi : i < (votingPlayers room).length) (b) (hb : b < brsNew.length),
            ((votingPlayers room).get ⟨i, hi⟩ ∈ (brsNew.get ⟨b, hb⟩).players ↔
              b = i % brsNew.length)) ∧
          (∀ p ∈ votingPlayers room, ∃ b, ∃ hb : b < brsNew.length,
            p ∈ (brsNew.get ⟨b, hb⟩).players))) ∧
    (∃ r2, handleCreateBreakoutRooms "ABC123" "P1" 2 bbGenId 5 (some scenRoom) = .ok r2 ∧
      (brs r2).map (fun br => br.players) = [[mkP "P1", mkP "P3"], [mkP "P2", mkP "P4"]]) := by
  constructor
  · intro c pid n genId now room hc hp h2 h10 hcr hrev hv2 hvotes hnodup
    have hanyf : ((room.players.filter (fun p => !p.isObserver)).any
        (fun p => p.vote != none)) = false := by
      rw [List.any_eq_false]
      intro p hp2 hne
      rw [hvotes p hp2] at hne
      exact Bool.noConfusion hne
    have hplayers : (backfillBreakouts (backfillCreator room)).players = room.players := by
      rw [backfillBreakouts_players, backfillCreator_players]
    have hvp : votingPlayers (backfillBreakouts (backfillCreator room)) =
        votingPlayers room := by
      unfold votingPlayers
      rw [hplayers]
    have heff : effectiveBreakouts (backfillBreakouts (backfillCreator room)) n =
        effectiveBreakouts room n := by
      unfold effectiveBreakouts
      rw [hvp]
    have hcommon : handleCreateBreakoutRooms c pid n genId now (some room) =
        (if (min n (((votingPlayers (backfillBreakouts (backfillCreator room))).length /
            2 : Nat) : Int)) < 2 then
          .error (errorResponse
            "Not enough players to create breakout rooms (need at least 4 players)" 400)
        else .ok (setBreakoutRooms (backfillBreakouts (backfillCreator room))
          (newBreakoutList c genId now (backfillBreakouts (backfillCreator room)).players
            (effectiveBreakouts (backfillBreakouts (backfillCreator room)) n)))) := by
      rw [handleCreateBreakoutRooms.eq_def, if_neg (by simp [hc, hp]),
        if_neg (by simp only [Bool.or_eq_true, decide_eq_true_eq]; omega)]
      simp only []
      rw [if_neg (by simp [hcr]),
        if_neg (show ¬((backfillBreakouts (backfillCreator room)).players.filter
            (fun p => !p.isObserver)).length < 2 from by
          rw [hplayers]
          exact not_lt.mpr hv2),
        if_neg (show ¬((backfillBreakouts (backfillCreator room)).revealed ||
            ((backfillBreakouts (backfillCreator room)).players.filter
              (fun p => !p.isObserver)).any (fun p => p.vote != none)) = true from by
          rw [backfillBreakouts_revealed, backfillCreator_revealed, hplayers, hrev, hanyf]
          decide)]
      rfl
    rw [hvp, heff, hplayers] at hcommon
    constructor
    · intro hlt
      rw [hcommon, if_pos hlt]
    · intro hge
      have hKeq : effectiveBreakouts room n =
          (min n (((votingPlayers room).length / 2 : Nat) : Int)).toNat := rfl
      have hKpos : 0 < effectiveBreakouts room n := by
        rw [hKeq]
        omega
      have hvnodup : ((votingPlayers room).map (fun p => p.id)).Nodup :=
        List.Nodup.sublist (List.Sublist.map _ (List.filter_sublist _)) hnodup
      have hlen : (newBreakoutList c genId now room.players (effectiveBreakouts room n)).length =
          effectiveBreakouts room n := by
        unfold newBreakoutList
        rw [List.length_map, List.length_range]
      have hbucket : ∀ b (hb : b < (newBreakoutList c genId now room.players
          (effectiveBreakouts room n)).length),
          ((newBreakoutList c genId now room.players (effectiveBreakouts room n)).get
            ⟨b, hb⟩).players =
          bucketFrom (effectiveBreakouts room n) b 0 (votingPlayers room) := by
        intro b hb
        have hbK : b < effectiveBreakouts room n := by
          rw [← hlen]
          exact hb
        unfold newBreakoutList
        rw [List.get_eq_getElem, List.getElem_map, List.getElem_range]
        exact assignments_getD room.players _ b hbK
      refine ⟨newBreakoutList c genId now room.players (effectiveBreakouts room n),
        ⟨setBreakoutRooms (backfillBreakouts (backfillCreator room))
          (newBreakoutList c genId now room.players (effectiveBreakouts room n)),
          ?_, ?_, rfl⟩, ?_, ?_, ?_, ?_⟩
      · rw [hcommon, if_neg (not_lt.mpr hge)]
      · show (backfillBreakouts (backfillCreator room)).players = room.players
        rw [backfillBreakouts_players, backfillCreator_players]
      · rw [hlen, hKeq]
      · intro b hb
        rw [hbucket b hb, hlen]
      · intro i hi b hb
        have hbK : b < effectiveBreakouts room n := by
          rw [← hlen]
          exact hb
        rw [hbucket b hb, hlen]
        constructor
        · intro hmem
          rcases mem_bucketFrom_exists (votingPlayers room) 0 hmem with ⟨j, hj, hget, hmod⟩
          have hij : i = j := by
            have hinj := List.nodup_iff_injective_get.mp hvnodup
            have hgi : ((votingPlayers room).map (fun p => p.id)).get
                ⟨i, by rw [List.length_map]; exact hi⟩ =
                ((votingPlayers room).map (fun p => p.id)).get
                ⟨j, by rw [List.length_map]; exact hj⟩ := by
              rw [List.get_eq_getElem, List.get_eq_getElem, List.getElem_map,
                List.getElem_map,
                show (votingPlayers room)[i] = (votingPlayers room).get ⟨i, hi⟩ from rfl,
                show (votingPlayers room)[j] = (votingPlayers room).get ⟨j, hj⟩ from rfl,
                hget]
            exact Fin.mk.inj_iff.mp (hinj hgi)
          rw [hij, ← hmod, Nat.zero_add]
        · intro hbi
          apply get_mem_bucketFrom (votingPlayers room) 0 i hi
          rw [Nat.zero_add, hbi]
      · intro p hpm
        rcases List.mem_iff_get.mp hpm with ⟨⟨i, hi⟩, hget⟩
        have hbK : i % effectiveBreakouts room n < effectiveBreakouts room n :=
          Nat.mod_lt _ hKpos
        refine ⟨i % effectiveBreakouts room n, by rw [hlen]; exact hbK, ?_⟩
        rw [hbucket _ (by rw [hlen]; exact hbK), ← hget]
        apply get_mem_bucketFrom (votingPlayers room) 0 i hi
        rw [Nat.zero_add]
  · exact ⟨_, rfl, by decide⟩

/-- C2 witness: the four-player scenario room with numBreakouts = 2. -/
theorem C2_witness :
    ∃ brsNew, (∃ r2, handleCreateBreakoutRooms "ABC123" "P1" 2 bbGenId 5 (some scenRoom) =
        .ok r2 ∧ r2.players = scenRoom.players ∧ r2.breakoutRooms = some brsNew) ∧
      brsNew.length = (min 2 (((votingPlayers scenRoom).length / 2 : Nat) : Int)).toNat ∧
      (∀ b (hb : b < brsNew.length),
        (brsNew.get ⟨b, hb⟩).players = bucketFrom brsNew.length b 0 (votingPlayers scenRoom)) ∧
      (∀ i (hi : i < (votingPlayers scenRoom).length) (b) (hb : b < brsNew.length),
        ((votingPlayers scenRoom).get ⟨i, hi⟩ ∈ (brsNew.get ⟨b, hb⟩).players ↔
          b = i % brsNew.length)) ∧
      (∀ p ∈ votingPlayers scenRoom, ∃ b, ∃ hb : b < brsNew.length,
        p ∈ (brsNew.get ⟨b, hb⟩).players) :=
  (C2_create_breakouts.1 "ABC123" "P1" 2 bbGenId 5 scenRoom (by decide) (by decide)
    (by decide) (by decide) (by decide) rfl (by decide) (by decide) (by decide)).2
    (by decide)

/-- C1 (amended): in every reachable room state, every breakout-room member's
id belongs to a non-observer player of the main list, and the number of
breakout rooms containing a given id never exceeds the number of main-list
entries carrying that id — hence at most one breakout room whenever the id is
unique in the room; a breakout room emptied by LeaveRoom is pruned by that
command, but (contrary to the original claim) LeaveBreakoutRoom and
JoinBreakoutRoom do not prune, so reachable states may contain empty breakout
rooms (see the counterexample). -/
theorem C1_breakout_invariant_amended :
    (∀ s, Reachable s → ∀ r, s = some r →
      (∀ br ∈ brs r, ∀ p ∈ br.players,
        ∃ q ∈ r.players, q.id = p.id ∧ q.isObserver = false) ∧
      (∀ pid : String,
        (brs r).countP (fun br => br.players.any (fun p => p.id == pid)) ≤
          r.players.countP (fun p => p.id == pid)) ∧
      (∀ pid : String, r.players.countP (fun p => p.id == pid) ≤ 1 →
        (brs r).countP (fun br => br.players.any (fun p => p.id == pid)) ≤ 1)) ∧
    (∀ (c pid : String) (room r2 : Room),
      handleLeave c pid (some room) = .ok (some r2) →
      ∀ br ∈ brs r2, br.players ≠ []) := by
  constructor
  · intro s hs r hr
    have hInv := roomInv_reachable hs
    rw [hr] at hInv
    have hInvR : RoomInv r := hInv
    refine ⟨?_, hInvR.brCount, ?_⟩
    · intro br hbr p hp
      rcases hInvR.idSubset br hbr p hp with ⟨q, hq, hqid⟩
      exact ⟨q, hq, hqid, hInvR.obsMain q hq⟩
    · intro pid h1
      exact (hInvR.brCount pid).trans h1
  · intro c pid room r2 h br hbr
    obtain ⟨_, hbrs⟩ := handleLeave_some_spec h
    exact List.length_pos.mp (hbrs br hbr).2

/-- C1 witness: the invariant at a concrete reachable room, and pruning by a
concrete LeaveRoom call. -/
theorem C1_witness :
    ((∀ br ∈ brs joinedRoom, ∀ p ∈ br.players,
        ∃ q ∈ joinedRoom.players, q.id = p.id ∧ q.isObserver = false) ∧
      (∀ pid : String,
        (brs joinedRoom).countP (fun br => br.players.any (fun p => p.id == pid)) ≤
          joinedRoom.players.countP (fun p => p.id == pid))) ∧
    (∀ br ∈ brs leaveRoomEx, br.players ≠ []) := by
  have h := C1_breakout_invariant_amended
  have h1 := h.1 (applyCmds [Cmd.join "ABC123" "Alice" "P1" 1])
    ⟨[Cmd.join "ABC123" "Alice" "P1" 1], rfl⟩ joinedRoom (by rfl)
  exact ⟨⟨h1.1, h1.2.1⟩, h.2 "ABC123" "P2" scenRoom leaveRoomEx (by rfl)⟩

/-- C1 counterexample: the trace `cexCmds` (four joins, breakout creation,
then both members of breakout 1 leaving it via LeaveBreakoutRoom) reaches a
state whose first breakout room has zero players — refuting the original
claim that no reachable state contains an empty breakout room. -/
theorem C1_counterexample :
    Reachable cexState ∧ ∃ r, cexState = some r ∧ ∃ br ∈ brs r, br.players = [] :=
  ⟨⟨cexCmds, rfl⟩, _, rfl, by decide⟩
